import Mathlib

/-!
Shallow embedding, in Lean 4, of the three Python components of the
valgresultat.no downloader: the entity discoverer
(`src/downloader/src/entities_scraper.py`), the snapshot monitor
(`src/downloader/src/monitor.py`) and the retention manager
(`src/downloader/src/cleanup.py`).  Python strings are modelled as
`String`/`List Char`, JSON documents as the inductive `Json`, the
filesystem pieces each component touches as explicit lists, and wall-clock
time as explicit numeric parameters.  Every definition mirrors one Python
function; the doc comment of each definition names its source.
-/

namespace Valg

/-! ## Character and string utilities shared by the embeddings -/

/-- Lexicographic (code-point) order on character lists: the order Python
uses when comparing `str` values with `<`/`<=` and inside `sorted`. -/
def lexLe : List Char → List Char → Bool
  | [], _ => true
  | _ :: _, [] => false
  | a :: as, b :: bs => if a = b then lexLe as bs else decide (a < b)

/-- Python `str.split(sep)` for a one-character separator: always returns at
least one (possibly empty) segment. -/
def splitSep (sep : Char) : List Char → List (List Char)
  | [] => [[]]
  | c :: rest =>
    if c = sep then [] :: splitSep sep rest
    else
      match splitSep sep rest with
      | [] => [[c]]
      | s :: ss => (c :: s) :: ss

/-- Python `sep.join(parts)` for a one-character separator. -/
def joinSep (sep : Char) : List (List Char) → List Char
  | [] => []
  | [s] => s
  | s :: rest => s ++ sep :: joinSep sep rest

/-! ## Name normalization (`EntitiesScraper._normalize_name`) -/

/-- The case mapping of Python `str.lower()` on the alphabet this system
manipulates: the ASCII uppercase letters and the Norwegian letters Æ, Ø,
Å.  (Python lowercases all of Unicode; only these characters occur in the
scraper's inputs.) -/
def pyLowerTable : List (Char × Char) :=
  [('A', 'a'), ('B', 'b'), ('C', 'c'), ('D', 'd'), ('E', 'e'), ('F', 'f'),
   ('G', 'g'), ('H', 'h'), ('I', 'i'), ('J', 'j'), ('K', 'k'), ('L', 'l'),
   ('M', 'm'), ('N', 'n'), ('O', 'o'), ('P', 'p'), ('Q', 'q'), ('R', 'r'),
   ('S', 's'), ('T', 't'), ('U', 'u'), ('V', 'v'), ('W', 'w'), ('X', 'x'),
   ('Y', 'y'), ('Z', 'z'), ('Æ', 'æ'), ('Ø', 'ø'), ('Å', 'å')]

/-- Python `str.lower()` on one character of the modelled alphabet:
characters outside the table are left unchanged. -/
def pyLower (c : Char) : Char :=
  ((pyLowerTable.find? (fun p => p.1 = c)).map (fun p => p.2)).getD c

/-- Python `str.isalnum()` on one character, restricted to the same
alphabet: ASCII letters and digits plus æ, ø, å (all alphanumeric for
Python). -/
def pyIsAlnum (c : Char) : Bool :=
  c.isAlpha || c.isDigit || decide (c = 'æ') || decide (c = 'ø') || decide (c = 'å')

/-- Python `name.replace(old, new)` for a one-character pattern `old`:
every occurrence of `old` is replaced by the string `new`. -/
def replaceChar (old : Char) (new : List Char) (l : List Char) : List Char :=
  l.flatMap (fun c => if c = old then new else [c])

/-- The seven sequential `str.replace` calls of `_normalize_name`
(`entities_scraper.py` lines 117-128), applied in the dictionary's
insertion order: æ→ae, ø→o, å→a, space→-, period→(nothing),
comma→(nothing), plus→-og-. -/
def applyReplacements (l : List Char) : List Char :=
  replaceChar '+' "-og-".data
    (replaceChar ',' []
      (replaceChar '.' []
        (replaceChar ' ' "-".data
          (replaceChar 'å' "a".data
            (replaceChar 'ø' "o".data
              (replaceChar 'æ' "ae".data l))))))

/-- Python `'--' in name`: does the list contain two adjacent hyphens? -/
def hasDoubleHyphen : List Char → Bool
  | '-' :: '-' :: _ => true
  | _ :: rest => hasDoubleHyphen rest
  | [] => false

/-- One pass of Python `name.replace('--', '-')`: left-to-right,
non-overlapping. -/
def replaceDoubleHyphen : List Char → List Char
  | '-' :: '-' :: rest => '-' :: replaceDoubleHyphen rest
  | c :: rest => c :: replaceDoubleHyphen rest
  | [] => []

/-- Fueled unfolding of the `while '--' in name:` loop of
`_normalize_name`.  Each pass strictly shortens the list when a double
hyphen is present, so fuel `l.length` always suffices (proved below). -/
def collapseGo : Nat → List Char → List Char
  | 0, l => l
  | fuel + 1, l =>
    if hasDoubleHyphen l then collapseGo fuel (replaceDoubleHyphen l) else l

/-- The `while '--' in name: name = name.replace('--', '-')` loop of
`_normalize_name` (`entities_scraper.py` lines 134-135). -/
def collapseHyphens (l : List Char) : List Char := collapseGo l.length l

/-- Python `name.strip('-')`: drop leading and trailing hyphens. -/
def stripDash (l : List Char) : List Char :=
  ((l.dropWhile (fun c => c = '-')).reverse.dropWhile (fun c => c = '-')).reverse

/-- `EntitiesScraper._normalize_name` (`entities_scraper.py` lines
111-138): lower-case, apply the seven replacements, keep only alphanumeric
characters and hyphens, collapse repeated hyphens, strip leading/trailing
hyphens. -/
def normalizeName (l : List Char) : List Char :=
  stripDash
    (collapseHyphens
      (List.filter (fun c => pyIsAlnum c || decide (c = '-'))
        (applyReplacements (l.map pyLower))))

/-! ## Entity IDs (`EntitiesScraper._create_*_id`) and the Monitor's
re-parsing of them (`ElectionMonitor.process_entity`) -/

/-- One child-entity descriptor from the upstream API's `_links.related`
array: numeric code `nr`, descriptive path `hrefNavn`, relative link
`href`, and the flag signalling subordinate districts.  (The `KeyError`
branch of the `_create_*_id` helpers concerns malformed descriptors with
missing keys; descriptors of this shape always carry the four fields.) -/
structure ApiLink where
  nr : String
  hrefNavn : String
  href : String
  harUnderordnet : Bool
deriving DecidableEq

/-- Python `hrefNavn.split('/')[-1]`, the descriptive path's last segment.
(`urllib.parse.unquote` percent-decoding is the identity on the decoded
names this model quantifies over.) -/
def lastSlashSegment (l : List Char) : List Char :=
  ((splitSep '/' l).getLast?).getD []

/-- `EntitiesScraper._create_fylke_id` (`entities_scraper.py` lines
140-149): `fylke-{nr}-{normalized name}`. -/
def createFylkeId (fylke : ApiLink) : String :=
  String.mk ("fylke-".data ++ fylke.nr.data ++ '-' :: normalizeName (lastSlashSegment fylke.hrefNavn.data))

/-- `EntitiesScraper._create_kommune_id` (`entities_scraper.py` lines
151-161): `kommune-{fylke nr}-{kommune nr}-{normalized name}`. -/
def createKommuneId (fylke kommune : ApiLink) : String :=
  String.mk ("kommune-".data ++ fylke.nr.data ++ '-' :: kommune.nr.data ++
    '-' :: normalizeName (lastSlashSegment kommune.hrefNavn.data))

/-- `EntitiesScraper._create_krets_id` (`entities_scraper.py` lines
163-174): `krets-{fylke nr}-{kommune nr}-{krets nr}-{normalized name}`. -/
def createKretsId (fylke kommune krets : ApiLink) : String :=
  String.mk ("krets-".data ++ fylke.nr.data ++ '-' :: kommune.nr.data ++
    '-' :: krets.nr.data ++ '-' :: normalizeName (lastSlashSegment krets.hrefNavn.data))

/-- The component recovery of `ElectionMonitor.process_entity`
(`monitor.py` lines 150-152): `base_id = '-'.join(entity_id.split('-')[:-1])`
followed by `components = base_id.split('-')`. -/
def idComponents (entityId : String) : List (List Char) :=
  splitSep '-' (joinSep '-' ((splitSep '-' entityId.data).dropLast))

/-! ## JSON documents and change detection
(`ElectionMonitor._has_meaningful_changes`) -/

/-- A JSON document as Python's `json` module materialises it: the values
`json.load` can produce, with numbers modelled as integers (the payloads
compared by the monitor carry integral counters and strings) and object
fields as an ordered association list. -/
inductive Json where
  | null : Json
  | bool (b : Bool) : Json
  | num (n : Int) : Json
  | str (s : List Char) : Json
  | arr (xs : List Json) : Json
  | obj (fields : List (List Char × Json)) : Json

/-- Order on object keys used by `json.dumps(..., sort_keys=True)`:
Python string order, i.e. code-point lexicographic. -/
def fieldLe (p q : List Char × Json) : Prop := lexLe p.1 q.1 = true

instance : DecidableRel fieldLe := fun _ _ => instDecidableEqBool _ _

/-- Key-sorting of one object level, as `sort_keys=True` performs it.
(Python's sort is stable; on the duplicate-free key lists of real JSON
objects any stable sort by key gives this result.) -/
def sortFields (fs : List (List Char × Json)) : List (List Char × Json) :=
  List.insertionSort fieldLe fs

mutual
/-- Recursive key-sorting of a document: `json.dumps(x, sort_keys=True)`
serialises `x` exactly as the plain serialiser below prints `canon x`. -/
def canon : Json → Json
  | .null => .null
  | .bool b => .bool b
  | .num n => .num n
  | .str s => .str s
  | .arr xs => .arr (canonList xs)
  | .obj fs => .obj (sortFields (canonFields fs))
/-- `canon` mapped over the elements of an array. -/
def canonList : List Json → List Json
  | [] => []
  | x :: xs => canon x :: canonList xs
/-- `canon` mapped over the values of an object's fields. -/
def canonFields : List (List Char × Json) → List (List Char × Json)
  | [] => []
  | (k, v) :: fs => (k, canon v) :: canonFields fs
end

/-- Decimal digits of a natural number, most significant first, written
with explicit fuel (`fuel > n` suffices) so that it evaluates by kernel
reduction. -/
def natReprGo : Nat → Nat → List Char
  | 0, _ => []
  | fuel + 1, n =>
    if n < 10 then [Char.ofNat (48 + n)]
    else natReprGo fuel (n / 10) ++ [Char.ofNat (48 + n % 10)]

/-- Python `str(n)` for a natural number. -/
def natRepr (n : Nat) : List Char := natReprGo (n + 1) n

/-- Python `str(n)` for an integer, as `json.dumps` prints numbers. -/
def intRepr (n : Int) : List Char :=
  if n < 0 then '-' :: natRepr n.natAbs else natRepr n.natAbs

/-- JSON string-literal escaping of `json.dumps` for the two structural
characters, quote and backslash.  (Control characters and non-ASCII
escapes do not occur in the normalized payloads this model quantifies
over; any injective escaping yields the same equality behaviour.) -/
def escapeChars (s : List Char) : List Char :=
  s.flatMap (fun c => if c = '"' ∨ c = '\\' then ['\\', c] else [c])

/-- The opening brace character of a serialised JSON object. -/
def lbrace : Char := Char.ofNat 123

/-- The closing brace character of a serialised JSON object. -/
def rbrace : Char := Char.ofNat 125

mutual
/-- Plain (unsorted) `json.dumps` with its default separators `', '` and
`': '`: applied after `canon`, this is `json.dumps(x, sort_keys=True)`. -/
def serialize : Json → List Char
  | .null => "null".data
  | .bool true => "true".data
  | .bool false => "false".data
  | .num n => intRepr n
  | .str s => '"' :: escapeChars s ++ ['"']
  | .arr xs => '[' :: serItems xs ++ [']']
  | .obj fs => lbrace :: serFields fs ++ [rbrace]
/-- Array elements joined by `', '`. -/
def serItems : List Json → List Char
  | [] => []
  | [x] => serialize x
  | x :: y :: xs => serialize x ++ ',' :: ' ' :: serItems (y :: xs)
/-- Object fields, each printed `"key": value`, joined by `', '`. -/
def serFields : List (List Char × Json) → List Char
  | [] => []
  | [(k, v)] => '"' :: escapeChars k ++ '"' :: ':' :: ' ' :: serialize v
  | (k, v) :: q :: fs =>
    ('"' :: escapeChars k ++ '"' :: ':' :: ' ' :: serialize v) ++ ',' :: ' ' :: serFields (q :: fs)
end

/-- `json.dumps(j, sort_keys=True)` as the monitor's comparison uses it. -/
def dumps (j : Json) : List Char := serialize (canon j)

/-- The inner `clean_data` of `ElectionMonitor._has_meaningful_changes`
(`monitor.py` lines 110-118): its first statement is `return data`, so it
is the identity; the metadata-stripping statements below that `return` are
dead code. -/
def cleanData (data : Json) : Json := data

/-- `ElectionMonitor._has_meaningful_changes` (`monitor.py` lines
105-123): true iff the two documents' key-sorted serialisations differ. -/
def hasMeaningfulChanges (oldData newData : Json) : Bool :=
  decide (dumps (cleanData oldData) ≠ dumps (cleanData newData))

mutual
/-- Well-formedness of a document that Python's `json.load` can actually
produce: every object level has pairwise-distinct keys (Python dicts
cannot hold duplicate keys). -/
def wfJson : Json → Bool
  | .null => true
  | .bool _ => true
  | .num _ => true
  | .str _ => true
  | .arr xs => wfList xs
  | .obj fs => decide ((fs.map Prod.fst).Nodup) && wfFields fs
/-- `wfJson` over an array's elements. -/
def wfList : List Json → Bool
  | [] => true
  | x :: xs => wfJson x && wfList xs
/-- `wfJson` over an object's field values. -/
def wfFields : List (List Char × Json) → Bool
  | [] => true
  | (_, v) :: fs => wfJson v && wfFields fs
end

mutual
/-- Structural-value equality of two JSON documents up to dict key order:
scalars must be identical, arrays must match element-wise in order, and
objects must carry the same key-value multiset (compared here after
key-sorting both sides), with values again compared up to key order. -/
inductive StructEq : Json → Json → Prop where
  | null : StructEq .null .null
  | bool (b : Bool) : StructEq (.bool b) (.bool b)
  | num (n : Int) : StructEq (.num n) (.num n)
  | str (s : List Char) : StructEq (.str s) (.str s)
  | arr {xs ys : List Json} : StructEqList xs ys → StructEq (.arr xs) (.arr ys)
  | obj {xs ys : List (List Char × Json)} :
      StructEqFields (sortFields xs) (sortFields ys) → StructEq (.obj xs) (.obj ys)
/-- `StructEq` element-wise on arrays. -/
inductive StructEqList : List Json → List Json → Prop where
  | nil : StructEqList [] []
  | cons {x y : Json} {xs ys : List Json} :
      StructEq x y → StructEqList xs ys → StructEqList (x :: xs) (y :: ys)
/-- Field-wise comparison: identical keys in identical positions, values
compared by `StructEq`. -/
inductive StructEqFields : List (List Char × Json) → List (List Char × Json) → Prop where
  | nil : StructEqFields [] []
  | cons {k1 k2 : List Char} {v1 v2 : Json} {fs gs : List (List Char × Json)} :
      k1 = k2 → StructEq v1 v2 → StructEqFields fs gs →
      StructEqFields ((k1, v1) :: fs) ((k2, v2) :: gs)
end

/-! ## The per-entity snapshot store (`ElectionMonitor._save_snapshot` and
`ElectionMonitor.process_entity`) -/

/-- The on-disk state the monitor keeps for one entity: the snapshot files
of its directory (name and content, in creation order) and the sibling
latest-pointer symlink (`{entity}.json`), modelled as the name of the file
it references, or `none` when no pointer exists. -/
structure SnapshotStore where
  files : List (String × Json)
  latest : Option String

/-- An entity directory before any snapshot has been written. -/
def emptyStore : SnapshotStore := ⟨[], none⟩

/-- Python `open(path, 'w')` + `json.dump`: an existing file of the same
name is overwritten in place, otherwise the file is created. -/
def writeFile (files : List (String × Json)) (name : String) (content : Json) :
    List (String × Json) :=
  if files.any (fun p => p.1 = name) then
    files.map (fun p => if p.1 = name then (name, content) else p)
  else files ++ [(name, content)]

/-- `ElectionMonitor._save_snapshot` (`monitor.py` lines 125-141): write
`{timestamp}.json`, unlink any existing latest-pointer, repoint it at the
file just written. -/
def saveSnapshot (st : SnapshotStore) (data : Json) (timestamp : String) : SnapshotStore :=
  ⟨writeFile st.files (timestamp ++ ".json") data, some (timestamp ++ ".json")⟩

/-- Python truthiness of a parsed JSON value, as tested by
`if not data: return` in `process_entity`. -/
def jsonTruthy : Json → Bool
  | .null => false
  | .bool b => b
  | .num n => decide (n ≠ 0)
  | .str s => decide (s ≠ [])
  | .arr xs => !xs.isEmpty
  | .obj fs => !fs.isEmpty

/-- The state transition of `ElectionMonitor.process_entity` (`monitor.py`
lines 171-188) on one entity's store: `fetched` is the outcome of
`_fetch_data` (`none` after the five retries fail).  A falsy fetch result
is skipped; with a latest pointer present the referenced payload is
compared and a snapshot saved only on meaningful change; without one the
payload is saved as a first-time download.  (A pointer whose target file
is missing would make the `open` call raise, ending the call with the
store unchanged.) -/
def processEntityStep (st : SnapshotStore) (fetched : Option Json) (timestamp : String) :
    SnapshotStore :=
  match fetched with
  | none => st
  | some data =>
    if jsonTruthy data = false then st
    else
      match st.latest with
      | some n =>
        match (st.files.find? (fun p => p.1 = n)).map (fun p => p.2) with
        | some previous =>
          if hasMeaningfulChanges previous data then saveSnapshot st data timestamp else st
        | none => st
      | none => saveSnapshot st data timestamp

/-! ## Entity discovery (`EntitiesScraper.scrape_entities`) and the
registry file (`ElectionMonitor._load_entities`) -/

/-- The per-year value of the entity registry: one ordered ID list per
tier, `{'fylke': [...], 'kommune': [...], 'krets': [...]}`. -/
structure TierLists where
  fylke : List String
  kommune : List String
  krets : List String
deriving DecidableEq

/-- The empty per-year entry `scrape_entities` initialises for a year it
has not seen. -/
def emptyTiers : TierLists := ⟨[], [], []⟩

/-- The entity registry `{year: {fylke: [...], kommune: [...], krets:
[...]}}`, as an insertion-ordered association list (Python dicts preserve
insertion order). -/
abbrev Registry := List (String × TierLists)

/-- Dictionary lookup `entities.get(year)`. -/
def regFind (year : String) (reg : Registry) : Option TierLists :=
  (reg.find? (fun p => p.1 = year)).map (fun p => p.2)

/-- Dictionary assignment `entities[year] = tl`: update in place when the
key exists, append otherwise. -/
def regSet (year : String) (tl : TierLists) (reg : Registry) : Registry :=
  if reg.any (fun p => p.1 = year) then
    reg.map (fun p => if p.1 = year then (year, tl) else p)
  else reg ++ [(year, tl)]

/-- The krets loop of `scrape_entities` (`entities_scraper.py` lines
72-83), run for one newly discovered kommune: fetch its endpoint when
`harUnderordnet` is set and append each new krets ID. -/
def processKretser (fetch : String → Option (List ApiLink)) (base : String)
    (fylke kommune : ApiLink) (kretsIds : List String) : List String :=
  if kommune.harUnderordnet then
    match fetch (base ++ kommune.href) with
    | none => kretsIds
    | some related =>
      related.foldl (fun ks krets =>
        let kid := createKretsId fylke kommune krets
        if kid ∈ ks then ks else ks ++ [kid]) kretsIds
  else kretsIds

/-- The kommune loop of `scrape_entities` (`entities_scraper.py` lines
66-83), run for one newly discovered fylke over the (kommune ID, krets
ID) lists. -/
def processKommuner (fetch : String → Option (List ApiLink)) (base : String)
    (fylke : ApiLink) (related : List ApiLink) (st : List String × List String) :
    List String × List String :=
  related.foldl (fun st kommune =>
    let kid := createKommuneId fylke kommune
    if kid ∈ st.1 then st
    else (st.1 ++ [kid], processKretser fetch base fylke kommune st.2)) st

/-- The fylke loop of `scrape_entities` (`entities_scraper.py` lines
54-83): append each new fylke ID and, for new fylker only, descend into
kommuner (a failed kommune fetch aborts just that subtree). -/
def processFylker (fetch : String → Option (List ApiLink)) (base : String)
    (related : List ApiLink) (tl : TierLists) : TierLists :=
  related.foldl (fun tl fylke =>
    let fid := createFylkeId fylke
    if fid ∈ tl.fylke then tl
    else
      let tl1 : TierLists := ⟨tl.fylke ++ [fid], tl.kommune, tl.krets⟩
      match fetch (base ++ fylke.href) with
      | none => tl1
      | some kommuneRelated =>
        let pr := processKommuner fetch base fylke kommuneRelated (tl1.kommune, tl1.krets)
        ⟨tl1.fylke, pr.1, pr.2⟩) tl

/-- One iteration of the year loop of `scrape_entities`
(`entities_scraper.py` lines 32-83): initialise the year's entry if
absent, fetch the national endpoint (`{base}/{year}/st`), and on success
run the fylke loop; on failure `continue`, keeping the initialised
entry. -/
def scrapeYearStep (fetch : String → Option (List ApiLink)) (base : String)
    (reg : Registry) (year : String) : Registry :=
  let reg1 := if (regFind year reg).isSome then reg else reg ++ [(year, emptyTiers)]
  let tl := (regFind year reg1).getD emptyTiers
  match fetch (base ++ "/" ++ year ++ "/st") with
  | none => reg1
  | some related => regSet year (processFylker fetch base related tl) reg1

/-- `EntitiesScraper.scrape_entities` (`entities_scraper.py` lines 22-89)
run on a scraper instance whose accumulated `self.entities` is
`entities0` (a freshly constructed scraper, as `_load_entities` builds,
starts from the empty registry).  The surrounding `try/except` returns the
empty registry only when an exception escapes the loops; the fetch-failure
paths are the explicit `continue` branches modelled here. -/
def scrapeEntities (fetch : String → Option (List ApiLink)) (base : String)
    (years : List String) (entities0 : Registry) : Registry :=
  years.foldl (scrapeYearStep fetch base) entities0

/-- `ElectionMonitor._load_entities` (`monitor.py` lines 48-77) after the
scrape: given the registry parsed from the persisted `entities.json`
(empty when the file is missing or invalid) and the scraper's result,
return the registry the monitor keeps, paired with whether
`entities.json` was rewritten with the scraped data.  A truthy (non-empty)
scrape result is written to the file and returned; only a falsy result
falls back to the persisted registry. -/
def loadEntities (existing scraped : Registry) : Registry × Bool :=
  match scraped with
  | [] => (existing, false)
  | _ => (scraped, true)

/-! ## The monitor loop (`ElectionMonitor.run`) -/

/-- The tier polling intervals `self.schedules` (`monitor.py` lines
27-32), in seconds. -/
def schedules : List (String × Nat) :=
  [("nasjonalt", 300), ("fylke", 600), ("kommune", 900), ("krets", 3600)]

/-- `self.schedules[tier]`. -/
def schedGet (tier : String) : Nat :=
  ((schedules.find? (fun p => p.1 = tier)).map (fun p => p.2)).getD 0

/-- `last_run.get(tier, 0)` on the loop's mutable timestamp dict. -/
def lrGet (lr : List (String × Nat)) (tier : String) : Nat :=
  ((lr.find? (fun p => p.1 = tier)).map (fun p => p.2)).getD 0

/-- `last_run[tier] = current_time`. -/
def lrSet (lr : List (String × Nat)) (tier : String) (v : Nat) : List (String × Nat) :=
  if lr.any (fun p => p.1 = tier) then
    lr.map (fun p => if p.1 = tier then (tier, v) else p)
  else lr ++ [(tier, v)]

/-- One `if current_time - last_run.get(tier, 0) >= self.schedules[tier]:`
block of `ElectionMonitor.run` (`monitor.py` lines 201-221): when due,
record one `process_entity(tier, id, year)` call per ID and set the tier's
last-run time. -/
def tierBlock (tier : String) (ids : List String) (year : String) (currentTime : Nat)
    (st : List (String × String × String) × List (String × Nat)) :
    List (String × String × String) × List (String × Nat) :=
  if schedGet tier ≤ currentTime - lrGet st.2 tier then
    (st.1 ++ ids.map (fun i => (tier, i, year)), lrSet st.2 tier currentTime)
  else st

/-- The body of `for year in self.election_years:` in one iteration of the
`while True:` loop of `ElectionMonitor.run` (`monitor.py` lines 197-221):
the four tier blocks in source order, national first. -/
def iterYear (entities : Registry) (currentTime : Nat)
    (st : List (String × String × String) × List (String × Nat)) (year : String) :
    List (String × String × String) × List (String × Nat) :=
  let cfg := (regFind year entities).getD emptyTiers
  let st1 := tierBlock "nasjonalt" ["norge"] year currentTime st
  let st2 := tierBlock "fylke" cfg.fylke year currentTime st1
  let st3 := tierBlock "kommune" cfg.kommune year currentTime st2
  tierBlock "krets" cfg.krets year currentTime st3

/-- One full iteration of the `while True:` loop of `ElectionMonitor.run`
(`monitor.py` lines 194-224): `current_time` is read once, then every
configured year runs its four tier blocks against the shared `last_run`
dict.  Returns the `process_entity` calls made, in order, and the updated
`last_run`. -/
def runIteration (entities : Registry) (years : List String)
    (lr : List (String × Nat)) (currentTime : Nat) :
    List (String × String × String) × List (String × Nat) :=
  years.foldl (iterYear entities currentTime) ([], lr)

/-! ## The retention manager (`cleanup.py`) -/

/-- The four tiers `cleanup_year` sweeps and `retention_periods` knows. -/
inductive EntityType where
  | nasjonalt : EntityType
  | fylke : EntityType
  | kommune : EntityType
  | krets : EntityType
deriving DecidableEq

/-- The directory-name string of a tier, as `process_entity` builds paths
with it. -/
def tierName : EntityType → String
  | .nasjonalt => "nasjonalt"
  | .fylke => "fylke"
  | .kommune => "kommune"
  | .krets => "krets"

/-- One entry of `DataRetentionManager.retention_periods` (`cleanup.py`
lines 20-33): keep everything, keep only the latest, or keep a number of
days. -/
inductive Retention where
  | all : Retention
  | latest : Retention
  | days (n : Nat) : Retention
deriving DecidableEq

/-- `retention_periods['election_active' if is_active else
'election_inactive'][entity_type]` (`cleanup.py` lines 20-33, 60-61). -/
def retentionPeriods (isActive : Bool) : EntityType → Retention
  | .nasjonalt => if isActive then .days 365 else .all
  | .fylke => if isActive then .days 180 else .latest
  | .kommune => if isActive then .days 90 else .latest
  | .krets => if isActive then .days 30 else .latest

/-- `DataRetentionManager.is_election_active` (`cleanup.py` lines 35-40):
the month of the given wall-clock time is September or October. -/
def isElectionActive (month : Nat) : Bool :=
  decide (month = 9) || decide (month = 10)

/-- Is `c` an ASCII decimal digit? -/
def isDigitChar (c : Char) : Bool := decide ('0' ≤ c) && decide (c ≤ '9')

/-- Numeric value of an ASCII digit. -/
def digitVal (c : Char) : Nat := c.toNat - 48

/-- Gregorian leap-year rule, as `datetime` applies it. -/
def isLeapYear (y : Nat) : Bool :=
  (decide (y % 4 = 0) && decide (y % 100 ≠ 0)) || decide (y % 400 = 0)

/-- Days in a month of a year, as `datetime` validates day-of-month. -/
def daysInMonth (y m : Nat) : Nat :=
  if m = 2 then (if isLeapYear y then 29 else 28)
  else if m = 4 ∨ m = 6 ∨ m = 9 ∨ m = 11 then 30
  else 31

/-- A parsed `YYYY-MM-DD__HHMM` timestamp. -/
structure Timestamp where
  year : Nat
  month : Nat
  day : Nat
  hour : Nat
  minute : Nat
deriving DecidableEq

/-- `datetime.strptime(stem, "%Y-%m-%d__%H%M")` (`cleanup.py` line 54) on
the zero-padded fixed-width names `_save_snapshot` writes: sixteen
characters, digits and separators in fixed positions, with the field
ranges `datetime` enforces.  Any other shape raises `ValueError`, here
`none`. -/
def parseTimestamp : List Char → Option Timestamp
  | [y1, y2, y3, y4, s1, m1, m2, s2, d1, d2, u1, u2, h1, h2, n1, n2] =>
    if isDigitChar y1 && isDigitChar y2 && isDigitChar y3 && isDigitChar y4 &&
       decide (s1 = '-') && isDigitChar m1 && isDigitChar m2 && decide (s2 = '-') &&
       isDigitChar d1 && isDigitChar d2 && decide (u1 = '_') && decide (u2 = '_') &&
       isDigitChar h1 && isDigitChar h2 && isDigitChar n1 && isDigitChar n2 then
      let y := ((digitVal y1 * 10 + digitVal y2) * 10 + digitVal y3) * 10 + digitVal y4
      let mo := digitVal m1 * 10 + digitVal m2
      let da := digitVal d1 * 10 + digitVal d2
      let ho := digitVal h1 * 10 + digitVal h2
      let mi := digitVal n1 * 10 + digitVal n2
      if 1 ≤ y && 1 ≤ mo && mo ≤ 12 && 1 ≤ da && da ≤ daysInMonth y mo &&
         ho ≤ 23 && mi ≤ 59 then
        some ⟨y, mo, da, ho, mi⟩
      else none
    else none
  | _ => none

/-- `pathlib.Path.stem`: the file name minus its last extension. -/
def stemOf (l : List Char) : List Char :=
  match splitSep '.' l with
  | [] => l
  | [_] => l
  | parts => joinSep '.' parts.dropLast

/-- Minutes since the epoch of the proleptic Gregorian calendar
(`datetime.toordinal` arithmetic), the scale on which `datetime`
subtraction and `timedelta(days=n)` operate. -/
def daysBeforeYear (y : Nat) : Nat :=
  365 * (y - 1) + (y - 1) / 4 - (y - 1) / 100 + (y - 1) / 400

/-- Days of the year before the first of month `m`. -/
def daysBeforeMonth (y m : Nat) : Nat :=
  ((List.range (m - 1)).map (fun i => daysInMonth y (i + 1))).sum

/-- A timestamp as minutes on the `datetime` scale. -/
def toMinutes (ts : Timestamp) : Nat :=
  ((daysBeforeYear ts.year + daysBeforeMonth ts.year ts.month + (ts.day - 1)) * 24
    + ts.hour) * 60 + ts.minute

/-- `DataRetentionManager.should_retain_snapshot` (`cleanup.py` lines
50-71), with the wall clock passed explicitly as minutes: unparseable
names are retained; `'all'` and `'latest'` policies return True
unconditionally; a day-count policy retains a timestamp at or after
`now - timedelta(days=n)`. -/
def shouldRetainSnapshot (name : String) (ty : EntityType) (isActive : Bool)
    (nowMinutes : Nat) : Bool :=
  match parseTimestamp (stemOf name.data) with
  | none => true
  | some ts =>
    match retentionPeriods isActive ty with
    | .all => true
    | .latest => true
    | .days n => decide (nowMinutes - n * 1440 ≤ toMinutes ts)

/-- String order by code points, the key order of Python `sorted` on file
names. -/
def nameLe (a b : String) : Prop := lexLe a.data b.data = true

instance : DecidableRel nameLe := fun _ _ => instDecidableEqBool _ _

/-- `DataRetentionManager.get_snapshots` (`cleanup.py` lines 42-48) on the
name list of an existing entity directory: the `*.json` entries except the
directory's own latest-pointer name, sorted by file name.  (Python's
`sorted` is stable; on the duplicate-free name lists of a real directory
any stable sort gives this result.) -/
def getSnapshots (dirName : String) (files : List String) : List String :=
  List.insertionSort nameLe
    (files.filter (fun f =>
      List.isSuffixOf ".json".data f.data && decide (f ≠ dirName ++ ".json")))

/-- The deletions of `DataRetentionManager.cleanup_entity` (`cleanup.py`
lines 73-86), with the wall clock passed explicitly (month for
`is_election_active`, minutes for the cutoff): every snapshot except the
last of the sorted list is unlinked when `should_retain_snapshot` rejects
it. -/
def cleanupEntityDeleted (dirName : String) (ty : EntityType) (files : List String)
    (nowMonth nowMinutes : Nat) : List String :=
  match getSnapshots dirName files with
  | [] => []
  | snapshots =>
    (snapshots.dropLast).filter
      (fun s => !(shouldRetainSnapshot s ty (isElectionActive nowMonth) nowMinutes))

/-- The entity directory's contents after a `cleanup_entity` run. -/
def cleanupEntityRemaining (dirName : String) (ty : EntityType) (files : List String)
    (nowMonth nowMinutes : Nat) : List String :=
  files.filter (fun f => decide (f ∉ cleanupEntityDeleted dirName ty files nowMonth nowMinutes))

/-! ## Directory layout: what the monitor writes vs what the sweep visits -/

/-- The snapshot directory `process_entity` writes an entity's files into
(`monitor.py` lines 146-169), relative to the data root: `year/nasjonalt/norge`
for the national entity, `year/{entity_type}/{entity_id}` otherwise. -/
def monitorEntityPath (ty : EntityType) (entityId year : String) : List String :=
  match ty with
  | .nasjonalt => [year, "nasjonalt", "norge"]
  | _ => [year, tierName ty, entityId]

/-- The child directory names of `parent` in a filesystem modelled as the
list of its directories (each a path from the data root). -/
def childNames (parent : List String) (dirs : List (List String)) : List String :=
  dirs.filterMap (fun q => if q.dropLast = parent then q.getLast? else none)

/-- A glob pattern `pre*` applied to a name. -/
def globStar (pre name : String) : Bool := List.isPrefixOf pre.data name.data

/-- The entity directories one `DataRetentionManager.cleanup_year` run
(`cleanup.py` lines 88-110) passes to `cleanup_entity`, relative to the
data root: `year/nasjonalt/norge`, the `fylke-*` children of
`year/fylke`, the `kommune-*` children of `year/kommune`, and the
`krets-*` children of `year/kommune/krets`. -/
def cleanupYearVisited (year : String) (dirs : List (List String)) : List (List String) :=
  [[year, "nasjonalt", "norge"]]
  ++ ((childNames [year, "fylke"] dirs).filter (globStar "fylke-")).map
      (fun d => [year, "fylke", d])
  ++ ((childNames [year, "kommune"] dirs).filter (globStar "kommune-")).map
      (fun d => [year, "kommune", d])
  ++ ((childNames [year, "kommune", "krets"] dirs).filter (globStar "krets-")).map
      (fun d => [year, "kommune", "krets", d])


/-! ## Auxiliary notions for the change-detection analysis -/

/-- Numeric value of a digit string, most significant digit first. -/
def digitsVal (l : List Char) : Nat :=
  l.foldl (fun a c => 10 * a + (c.toNat - 48)) 0

/-- Constructor discriminator of a document, matching the first character
of its serialisation. -/
def headTag : Json → Nat
  | .null => 0
  | .bool _ => 1
  | .num _ => 2
  | .str _ => 3
  | .arr _ => 4
  | .obj _ => 5

/-- The discriminator recoverable from the first character of a
serialisation. -/
def charTag (c : Char) : Nat :=
  if c = 'n' then 0
  else if c = 't' ∨ c = 'f' then 1
  else if c = '-' ∨ isDigitChar c = true then 2
  else if c = '"' then 3
  else if c = '[' then 4
  else if c = lbrace then 5
  else 6

/-! # Theorems -/

/-! ## Helper lemmas for the retention manager -/

/-- Snapshot enumeration of a duplicate-free directory listing is
duplicate-free. -/
theorem getSnapshots_nodup (dirName : String) (files : List String)
    (h : files.Nodup) : (getSnapshots dirName files).Nodup := by
  have hperm := List.perm_insertionSort nameLe
    (files.filter (fun f =>
      List.isSuffixOf ".json".data f.data && decide (f ≠ dirName ++ ".json")))
  exact (hperm.nodup_iff).mpr (h.filter _)

/-- In a duplicate-free list the last element does not occur before the
last position. -/
theorem getLast_not_mem_dropLast {α : Type} (l : List α) (hnd : l.Nodup)
    (h : l ≠ []) : l.getLast h ∉ l.dropLast := by
  intro hmem
  have hsplit : l.dropLast ++ [l.getLast h] = l := List.dropLast_append_getLast h
  rw [← hsplit] at hnd
  rcases (List.nodup_append.mp hnd) with ⟨-, -, hdisj⟩
  exact hdisj hmem (List.mem_singleton_self _)

/-- Everything `cleanup_entity` deletes comes from the sorted snapshot
list minus its last element. -/
theorem cleanupEntityDeleted_subset_dropLast (dirName : String) (ty : EntityType)
    (files : List String) (nowMonth nowMinutes : Nat) :
    cleanupEntityDeleted dirName ty files nowMonth nowMinutes ⊆
      (getSnapshots dirName files).dropLast := by
  unfold cleanupEntityDeleted
  rcases hgs : getSnapshots dirName files with - | ⟨a, as⟩
  · exact fun x hx => absurd hx (List.not_mem_nil x)
  · exact fun x hx => List.mem_of_mem_filter hx

/-- C5 (amended): for every entity directory, tier, election-active
status and wall-clock time, a cleanup run never deletes the snapshot that
sorts last by file name (for directories whose snapshot names are all
well-formed timestamps this is the newest snapshot by embedded
timestamp, since the fixed-width format sorts chronologically). -/
theorem cleanup_never_deletes_last_sorted_snapshot (dirName : String) (ty : EntityType)
    (files : List String) (nowMonth nowMinutes : Nat) (hnd : files.Nodup)
    (h : getSnapshots dirName files ≠ []) :
    (getSnapshots dirName files).getLast h ∉
      cleanupEntityDeleted dirName ty files nowMonth nowMinutes := by
  intro hmem
  have hsnd := getSnapshots_nodup dirName files hnd
  exact getLast_not_mem_dropLast _ hsnd h
    (cleanupEntityDeleted_subset_dropLast dirName ty files nowMonth nowMinutes hmem)

/-- Witness for C5 (amended) at a concrete directory of two snapshots of
a county entity in an election-inactive month. -/
theorem cleanup_never_deletes_last_sorted_snapshot_witness :
    (getSnapshots "fylke-03-oslo" ["2025-01-01__1200.json", "2025-01-05__1200.json"]).getLast
        (by decide) ∉
      cleanupEntityDeleted "fylke-03-oslo" EntityType.fylke
        ["2025-01-01__1200.json", "2025-01-05__1200.json"] 3 1100000000 :=
  cleanup_never_deletes_last_sorted_snapshot "fylke-03-oslo" EntityType.fylke
    ["2025-01-01__1200.json", "2025-01-05__1200.json"] 3 1100000000 (by decide) (by decide)

/-- C5 (counterexample): in an entity directory holding one well-formed
old snapshot and one malformed name that sorts after it, the cleanup run
(krets tier, election-active month, wall clock 2025-01-01) deletes the
one snapshot that carries an embedded timestamp — the newest snapshot by
embedded timestamp — because the code exempts the last name in file-name
order, which here is the malformed file. -/
theorem cleanup_deletes_timestamp_newest_counterexample :
    cleanupEntityDeleted "krets-01-0101-1-x" EntityType.krets
        ["2020-01-01__0000.json", "zzzz.json"] 9 (toMinutes ⟨2025, 1, 1, 0, 0⟩) =
      ["2020-01-01__0000.json"]
    ∧ getSnapshots "krets-01-0101-1-x" ["2020-01-01__0000.json", "zzzz.json"] =
      ["2020-01-01__0000.json", "zzzz.json"]
    ∧ parseTimestamp (stemOf "2020-01-01__0000.json".data) = some ⟨2020, 1, 1, 0, 0⟩
    ∧ parseTimestamp (stemOf "zzzz.json".data) = none := by
  refine ⟨by decide, by decide, by decide, by decide⟩

/-- C2: under the keep-latest policy (election-inactive month, county
tier) a cleanup run of a directory of five parseable snapshots deletes
nothing — `should_retain_snapshot` answers True for the `'latest'`
policy, so all five snapshots remain, not one. -/
theorem keep_latest_policy_retains_all_snapshots :
    retentionPeriods (isElectionActive 3) EntityType.fylke = Retention.latest
    ∧ cleanupEntityDeleted "fylke-03-oslo" EntityType.fylke
        ["2025-01-01__1200.json", "2025-01-02__1200.json", "2025-01-03__1200.json",
         "2025-01-04__1200.json", "2025-01-05__1200.json"] 3 1100000000 = []
    ∧ (cleanupEntityRemaining "fylke-03-oslo" EntityType.fylke
        ["2025-01-01__1200.json", "2025-01-02__1200.json", "2025-01-03__1200.json",
         "2025-01-04__1200.json", "2025-01-05__1200.json"] 3 1100000000).length = 5 := by
  refine ⟨by decide, by decide, by decide⟩

/-! ## The krets directory mismatch (C4) -/

/-- The second path component of every directory `cleanup_year` visits
is one of the three tier directories it sweeps. -/
theorem mem_cleanupYearVisited_tier_dir (year : String) (dirs : List (List String))
    (p : List String) (hp : p ∈ cleanupYearVisited year dirs) :
    p[1]? = some "nasjonalt" ∨ p[1]? = some "fylke" ∨ p[1]? = some "kommune" := by
  simp only [cleanupYearVisited, List.mem_append, List.mem_map, List.mem_singleton,
    List.mem_filter] at hp
  rcases hp with ((h | ⟨d, -, h⟩) | ⟨d, -, h⟩) | ⟨d, -, h⟩
  · subst h; simp
  · subst h; simp
  · subst h; simp
  · subst h; simp

/-- C4: the sweep of `cleanup_year` never visits the directory
`process_entity` writes a krets entity's snapshots into — the monitor
stores them under `year/krets/{id}` while the sweep only looks under
`year/nasjonalt`, `year/fylke`, `year/kommune` and `year/kommune/krets` —
so district snapshot directories are untouched by every cleanup run, for
every filesystem content. -/
theorem krets_dirs_never_visited_by_cleanup (year entityId : String)
    (dirs : List (List String)) :
    monitorEntityPath EntityType.krets entityId year ∉ cleanupYearVisited year dirs := by
  intro hmem
  have h2 := mem_cleanupYearVisited_tier_dir year dirs _ hmem
  simp only [monitorEntityPath, tierName] at h2
  rcases h2 with h | h | h <;> simp at h

/-! ## Registry loading (C1, C8) and the monitor loop (C3) -/

/-- Dictionary assignment never empties the registry. -/
theorem regSet_ne_nil (year : String) (tl : TierLists) (reg : Registry) :
    regSet year tl reg ≠ [] := by
  rcases reg with - | ⟨p, ps⟩
  · simp [regSet]
  · unfold regSet
    split
    · simp
    · simp

/-- One year-loop iteration of the scraper always leaves the registry
non-empty: the year's entry is created before the national fetch, so even
a failed fetch leaves it in place. -/
theorem scrapeYearStep_ne_nil (fetch : String → Option (List ApiLink)) (base : String)
    (reg : Registry) (year : String) : scrapeYearStep fetch base reg year ≠ [] := by
  unfold scrapeYearStep
  have h1 : (if (regFind year reg).isSome then reg else reg ++ [(year, emptyTiers)]) ≠ [] := by
    rcases reg with - | ⟨p, ps⟩
    · simp [regFind]
    · split <;> simp
  rcases hf : fetch (base ++ "/" ++ year ++ "/st") with - | related
  · simpa [hf] using h1
  · simp only [hf]
    exact regSet_ne_nil _ _ _

/-- Folding year steps over a non-empty year list yields a non-empty
registry. -/
theorem scrapeEntities_ne_nil (fetch : String → Option (List ApiLink)) (base : String)
    (years : List String) (entities0 : Registry) (h : years ≠ []) :
    scrapeEntities fetch base years entities0 ≠ [] := by
  induction years generalizing entities0 with
  | nil => exact absurd rfl h
  | cons y ys ih =>
    rcases ys with - | ⟨z, zs⟩
    · exact scrapeYearStep_ne_nil fetch base entities0 y
    · exact ih (scrapeYearStep fetch base entities0 y) (by simp)

/-- C1 (amended): `_load_entities` never merges — with at least one
configured election year the scraper's result is always truthy (each
year's entry is initialised before any fetch), so `_load_entities` always
rewrites `entities.json` with the freshly scraped registry alone and
returns it; the persisted registry survives only in IDs the scraper
rediscovered, the fallback branch being reachable only when an exception
makes `scrape_entities` return the empty registry. -/
theorem load_entities_replaces_registry_on_success (fetch : String → Option (List ApiLink))
    (base : String) (years : List String) (existing : Registry) (h : years ≠ []) :
    scrapeEntities fetch base years [] ≠ []
    ∧ loadEntities existing (scrapeEntities fetch base years []) =
        (scrapeEntities fetch base years [], true) := by
  have hne := scrapeEntities_ne_nil fetch base years [] h
  refine ⟨hne, ?_⟩
  unfold loadEntities
  rcases hs : scrapeEntities fetch base years [] with - | ⟨p, ps⟩
  · exact absurd hs hne
  · rfl

/-- Witness for C1 (amended): one year, a fetch oracle knowing only the
national endpoint. -/
theorem load_entities_replaces_registry_on_success_witness :
    scrapeEntities (fun url => if url = "https://api/2021/st" then
        some [⟨"03", "/2021/fylker/oslo", "/2021/st/03", false⟩] else none)
        "https://api" ["2021"] [] ≠ []
    ∧ loadEntities [("2021", ⟨["fylke-99-gone"], [], []⟩)]
        (scrapeEntities (fun url => if url = "https://api/2021/st" then
          some [⟨"03", "/2021/fylker/oslo", "/2021/st/03", false⟩] else none)
          "https://api" ["2021"] []) =
        (scrapeEntities (fun url => if url = "https://api/2021/st" then
          some [⟨"03", "/2021/fylker/oslo", "/2021/st/03", false⟩] else none)
          "https://api" ["2021"] [], true) :=
  load_entities_replaces_registry_on_success
    (fun url => if url = "https://api/2021/st" then
      some [⟨"03", "/2021/fylker/oslo", "/2021/st/03", false⟩] else none)
    "https://api" ["2021"] [("2021", ⟨["fylke-99-gone"], [], []⟩)] (by decide)

/-- C1 (counterexample): a persisted registry holds `fylke-99-gone`;
discovery succeeds (the national fetch returns one county, so the scrape
is truthy and non-trivial), yet the registry `_load_entities` returns and
writes back no longer contains the persisted ID — the scraped registry
replaces the persisted one instead of being merged with it. -/
theorem load_entities_drops_persisted_id :
    scrapeEntities (fun url => if url = "https://api/2021/st" then
        some [⟨"03", "/2021/fylker/oslo", "/2021/st/03", false⟩] else none)
        "https://api" ["2021"] [] = [("2021", ⟨["fylke-03-oslo"], [], []⟩)]
    ∧ regFind "2021" [("2021", ⟨["fylke-99-gone"], [], []⟩)] =
        some ⟨["fylke-99-gone"], [], []⟩
    ∧ (loadEntities [("2021", ⟨["fylke-99-gone"], [], []⟩)]
        (scrapeEntities (fun url => if url = "https://api/2021/st" then
          some [⟨"03", "/2021/fylker/oslo", "/2021/st/03", false⟩] else none)
          "https://api" ["2021"] [])).1 = [("2021", ⟨["fylke-03-oslo"], [], []⟩)]
    ∧ "fylke-99-gone" ∉ ((regFind "2021" (loadEntities [("2021", ⟨["fylke-99-gone"], [], []⟩)]
        (scrapeEntities (fun url => if url = "https://api/2021/st" then
          some [⟨"03", "/2021/fylker/oslo", "/2021/st/03", false⟩] else none)
          "https://api" ["2021"] [])).1).getD emptyTiers).fylke := by
  refine ⟨by decide, by decide, by decide, by decide⟩

/-- C8: with every fetch failing, `scrape_entities` does not return an
empty registry — it returns one empty-tier entry per configured year,
which is truthy — so `_load_entities` overwrites the persisted registry
with the empty-tier registry instead of falling back to it. -/
theorem total_fetch_failure_overwrites_registry :
    scrapeEntities (fun _ => none) "https://api" ["2021"] [] = [("2021", ⟨[], [], []⟩)]
    ∧ loadEntities [("2021", ⟨["fylke-99-gone"], [], []⟩)]
        (scrapeEntities (fun _ => none) "https://api" ["2021"] []) =
        ([("2021", ⟨[], [], []⟩)], true) := by
  refine ⟨by decide, by decide⟩

/-- C3: with two configured years and all tiers due (fresh `last_run`,
all intervals elapsed), one loop iteration of `ElectionMonitor.run`
processes the due tiers for the first year only: the tier blocks set
`last_run[tier] = current_time` inside the year loop, so the second
year's check `current_time - last_run[tier] >= interval` fails in the
same iteration and none of its entities is processed. -/
theorem monitor_loop_starves_second_year :
    (runIteration
        [("2021", ⟨["fylke-03-oslo"], [], []⟩), ("2025", ⟨["fylke-03-oslo"], [], []⟩)]
        ["2021", "2025"] [] 3600).1 =
      [("nasjonalt", "norge", "2021"), ("fylke", "fylke-03-oslo", "2021")]
    ∧ ("fylke", "fylke-03-oslo", "2025") ∉
        (runIteration
          [("2021", ⟨["fylke-03-oslo"], [], []⟩), ("2025", ⟨["fylke-03-oslo"], [], []⟩)]
          ["2021", "2025"] [] 3600).1
    ∧ schedGet "fylke" ≤ 3600 - lrGet [] "fylke" := by
  refine ⟨by decide, by decide, by decide⟩

/-! ## Round-trip of ID construction and component recovery (C9) -/

/-- `str.split` always yields at least one segment. -/
theorem splitSep_ne_nil (sep : Char) (l : List Char) : splitSep sep l ≠ [] := by
  induction l with
  | nil => simp [splitSep]
  | cons c cs ih =>
    by_cases hc : c = sep
    · simp [splitSep, hc]
    · rcases hsp : splitSep sep cs with - | ⟨s, ss⟩
      · exact absurd hsp ih
      · simp [splitSep, hc, hsp]

/-- No segment produced by `str.split(sep)` contains the separator. -/
theorem not_mem_of_mem_splitSep (sep : Char) (l s : List Char)
    (hs : s ∈ splitSep sep l) : sep ∉ s := by
  induction l generalizing s with
  | nil =>
    simp only [splitSep, List.mem_singleton] at hs
    simp [hs]
  | cons c cs ih =>
    by_cases hc : c = sep
    · simp only [splitSep, if_pos hc, List.mem_cons] at hs
      rcases hs with rfl | hs
      · simp
      · exact ih s hs
    · rcases hsp : splitSep sep cs with - | ⟨s0, ss⟩
      · exact absurd hsp (splitSep_ne_nil sep cs)
      · simp only [splitSep, if_neg hc, hsp, List.mem_cons] at hs
        rcases hs with rfl | hs
        · intro hmem
          rcases List.mem_cons.mp hmem with rfl | hmem
          · exact hc rfl
          · exact ih s0 (by rw [hsp]; exact List.mem_cons_self s0 ss) hmem
        · exact ih s (by rw [hsp]; exact List.mem_cons_of_mem s0 hs)

/-- Splitting at the first separator after a separator-free run. -/
theorem splitSep_append (sep : Char) (s t : List Char) (h : sep ∉ s) :
    splitSep sep (s ++ sep :: t) = s :: splitSep sep t := by
  induction s with
  | nil => simp [splitSep]
  | cons c cs ih =>
    have hc : ¬(c = sep) := fun hcc => h (hcc ▸ List.mem_cons_self c cs)
    have htail : sep ∉ cs := fun hmem => h (List.mem_cons_of_mem c hmem)
    show splitSep sep (c :: (cs ++ sep :: t)) = (c :: cs) :: splitSep sep t
    simp only [splitSep, if_neg hc]
    rw [ih htail]

/-- A separator-free string splits into itself. -/
theorem splitSep_eq_singleton (sep : Char) (s : List Char) (h : sep ∉ s) :
    splitSep sep s = [s] := by
  induction s with
  | nil => simp [splitSep]
  | cons c cs ih =>
    have hc : ¬(c = sep) := fun hcc => h (hcc ▸ List.mem_cons_self c cs)
    have htail : sep ∉ cs := fun hmem => h (List.mem_cons_of_mem c hmem)
    simp only [splitSep, if_neg hc, ih htail]

/-- `split` undoes `join` on a non-empty list of separator-free
segments. -/
theorem splitSep_joinSep (sep : Char) (parts : List (List Char)) (h1 : parts ≠ [])
    (h2 : ∀ p ∈ parts, sep ∉ p) : splitSep sep (joinSep sep parts) = parts := by
  induction parts with
  | nil => exact absurd rfl h1
  | cons p rest ih =>
    rcases rest with - | ⟨q, qs⟩
    · exact splitSep_eq_singleton sep p (h2 p (List.mem_cons_self p []))
    · rw [show joinSep sep (p :: q :: qs) = p ++ sep :: joinSep sep (q :: qs) from rfl,
        splitSep_append sep p _ (h2 p (List.mem_cons_self p _)),
        ih (by simp) (fun r hr => h2 r (List.mem_cons_of_mem p hr))]

/-- Splitting `join(codes) + '-' + slug` yields the codes followed by the
slug's dash-segments. -/
theorem splitSep_joinSep_slug (codes : List (List Char)) (slug : List Char)
    (h1 : codes ≠ []) (h2 : ∀ c ∈ codes, '-' ∉ c) :
    splitSep '-' (joinSep '-' codes ++ '-' :: slug) = codes ++ splitSep '-' slug := by
  induction codes with
  | nil => exact absurd rfl h1
  | cons p rest ih =>
    rcases rest with - | ⟨q, qs⟩
    · rw [show joinSep '-' [p] = p from rfl,
        splitSep_append '-' p slug (h2 p (List.mem_cons_self p []))]
      rfl
    · rw [show joinSep '-' (p :: q :: qs) ++ '-' :: slug =
        p ++ '-' :: (joinSep '-' (q :: qs) ++ '-' :: slug) by
          rw [show joinSep '-' (p :: q :: qs) = p ++ '-' :: joinSep '-' (q :: qs) from rfl]
          simp,
        splitSep_append '-' p _ (h2 p (List.mem_cons_self p _)),
        ih (by simp) (fun r hr => h2 r (List.mem_cons_of_mem p hr))]
      rfl

/-- Core of the monitor's component recovery: splitting an ID built as
`join(codes) + '-' + slug`, dropping the last dash-segment, re-joining
and re-splitting recovers exactly the code segments followed by the
slug's dash-segments minus the last. -/
theorem idComponents_of_codes (codes : List (List Char)) (slug : List Char)
    (h1 : codes ≠ []) (h2 : ∀ c ∈ codes, '-' ∉ c) :
    idComponents (String.mk (joinSep '-' codes ++ '-' :: slug)) =
      codes ++ (splitSep '-' slug).dropLast := by
  unfold idComponents
  rw [show (String.mk (joinSep '-' codes ++ '-' :: slug)).data =
    joinSep '-' codes ++ '-' :: slug from rfl,
    splitSep_joinSep_slug codes slug h1 h2,
    List.dropLast_append_of_ne_nil codes (splitSep_ne_nil '-' slug)]
  refine splitSep_joinSep '-' _ ?_ ?_
  · rcases codes with - | ⟨c, cs⟩
    · exact absurd rfl h1
    · simp
  · intro r hr
    rcases List.mem_append.mp hr with hr | hr
    · exact h2 r hr
    · exact not_mem_of_mem_splitSep '-' slug r (List.dropLast_subset _ hr)

/-- C9: for every discovered entity ID — `fylke-{nr}-{slug}`,
`kommune-{fylke}-{kommune}-{slug}`, `krets-{fylke}-{kommune}-{krets}-{slug}`
— the dash-segments the monitor recovers by dropping the last segment and
indexing the rest (`components[1]`, `[2]`, `[3]` in `process_entity`)
equal the numeric codes the discoverer put into the ID, whatever hyphens
the normalized name slug contains, provided the numeric codes themselves
are hyphen-free. -/
theorem id_code_path_roundtrip (fylke kommune krets : ApiLink)
    (hf : '-' ∉ fylke.nr.data) (hk : '-' ∉ kommune.nr.data) (hr : '-' ∉ krets.nr.data) :
    (idComponents (createFylkeId fylke))[1]? = some fylke.nr.data
    ∧ (idComponents (createKommuneId fylke kommune))[1]? = some fylke.nr.data
    ∧ (idComponents (createKommuneId fylke kommune))[2]? = some kommune.nr.data
    ∧ (idComponents (createKretsId fylke kommune krets))[1]? = some fylke.nr.data
    ∧ (idComponents (createKretsId fylke kommune krets))[2]? = some kommune.nr.data
    ∧ (idComponents (createKretsId fylke kommune krets))[3]? = some krets.nr.data := by
  have hwordF : '-' ∉ "fylke".data := by decide
  have hwordK : '-' ∉ "kommune".data := by decide
  have hwordR : '-' ∉ "krets".data := by decide
  have hfy : idComponents (createFylkeId fylke) =
      ["fylke".data, fylke.nr.data] ++
        (splitSep '-' (normalizeName (lastSlashSegment fylke.hrefNavn.data))).dropLast := by
    have hcodes : ∀ c ∈ ["fylke".data, fylke.nr.data], '-' ∉ c := by
      intro c hc
      rcases List.mem_cons.mp hc with rfl | hc
      · exact hwordF
      rcases List.mem_cons.mp hc with rfl | hc
      · exact hf
      cases hc
    have hmain := idComponents_of_codes ["fylke".data, fylke.nr.data]
      (normalizeName (lastSlashSegment fylke.hrefNavn.data)) (by simp) hcodes
    rw [← hmain]
    unfold createFylkeId
    apply congrArg idComponents
    apply congrArg String.mk
    rw [show joinSep '-' ["fylke".data, fylke.nr.data] =
      "fylke".data ++ '-' :: fylke.nr.data from rfl]
    simp
  have hko : idComponents (createKommuneId fylke kommune) =
      ["kommune".data, fylke.nr.data, kommune.nr.data] ++
        (splitSep '-' (normalizeName (lastSlashSegment kommune.hrefNavn.data))).dropLast := by
    have hcodes : ∀ c ∈ ["kommune".data, fylke.nr.data, kommune.nr.data], '-' ∉ c := by
      intro c hc
      rcases List.mem_cons.mp hc with rfl | hc
      · exact hwordK
      rcases List.mem_cons.mp hc with rfl | hc
      · exact hf
      rcases List.mem_cons.mp hc with rfl | hc
      · exact hk
      cases hc
    have hmain := idComponents_of_codes ["kommune".data, fylke.nr.data, kommune.nr.data]
      (normalizeName (lastSlashSegment kommune.hrefNavn.data)) (by simp) hcodes
    rw [← hmain]
    unfold createKommuneId
    apply congrArg idComponents
    apply congrArg String.mk
    rw [show joinSep '-' ["kommune".data, fylke.nr.data, kommune.nr.data] =
      "kommune".data ++ '-' :: (fylke.nr.data ++ '-' :: kommune.nr.data) from rfl]
    simp
  have hkr : idComponents (createKretsId fylke kommune krets) =
      ["krets".data, fylke.nr.data, kommune.nr.data, krets.nr.data] ++
        (splitSep '-' (normalizeName (lastSlashSegment krets.hrefNavn.data))).dropLast := by
    have hcodes : ∀ c ∈ ["krets".data, fylke.nr.data, kommune.nr.data, krets.nr.data],
        '-' ∉ c := by
      intro c hc
      rcases List.mem_cons.mp hc with rfl | hc
      · exact hwordR
      rcases List.mem_cons.mp hc with rfl | hc
      · exact hf
      rcases List.mem_cons.mp hc with rfl | hc
      · exact hk
      rcases List.mem_cons.mp hc with rfl | hc
      · exact hr
      cases hc
    have hmain := idComponents_of_codes
      ["krets".data, fylke.nr.data, kommune.nr.data, krets.nr.data]
      (normalizeName (lastSlashSegment krets.hrefNavn.data)) (by simp) hcodes
    rw [← hmain]
    unfold createKretsId
    apply congrArg idComponents
    apply congrArg String.mk
    rw [show joinSep '-' ["krets".data, fylke.nr.data, kommune.nr.data, krets.nr.data] =
      "krets".data ++ '-' :: (fylke.nr.data ++ '-' :: (kommune.nr.data ++ '-' :: krets.nr.data))
      from rfl]
    simp
  refine ⟨?_, ?_, ?_, ?_, ?_, ?_⟩ <;> simp [hfy, hko, hkr]

/-- Witness for C9 at a county, municipality and district whose slugs all
contain hyphens. -/
theorem id_code_path_roundtrip_witness :
    (idComponents (createFylkeId ⟨"15", "/15/møre og romsdal", "/2021/st/15", false⟩))[1]? =
      some "15".data
    ∧ (idComponents (createKommuneId ⟨"15", "/15/møre og romsdal", "/2021/st/15", false⟩
        ⟨"1554", "/1554/nedre eiker", "/2021/st/15/1554", true⟩))[1]? = some "15".data
    ∧ (idComponents (createKommuneId ⟨"15", "/15/møre og romsdal", "/2021/st/15", false⟩
        ⟨"1554", "/1554/nedre eiker", "/2021/st/15/1554", true⟩))[2]? = some "1554".data
    ∧ (idComponents (createKretsId ⟨"15", "/15/møre og romsdal", "/2021/st/15", false⟩
        ⟨"1554", "/1554/nedre eiker", "/2021/st/15/1554", true⟩
        ⟨"3", "/3/øvre bø", "/2021/st/15/1554/3", false⟩))[1]? = some "15".data
    ∧ (idComponents (createKretsId ⟨"15", "/15/møre og romsdal", "/2021/st/15", false⟩
        ⟨"1554", "/1554/nedre eiker", "/2021/st/15/1554", true⟩
        ⟨"3", "/3/øvre bø", "/2021/st/15/1554/3", false⟩))[2]? = some "1554".data
    ∧ (idComponents (createKretsId ⟨"15", "/15/møre og romsdal", "/2021/st/15", false⟩
        ⟨"1554", "/1554/nedre eiker", "/2021/st/15/1554", true⟩
        ⟨"3", "/3/øvre bø", "/2021/st/15/1554/3", false⟩))[3]? = some "3".data :=
  id_code_path_roundtrip ⟨"15", "/15/møre og romsdal", "/2021/st/15", false⟩
    ⟨"1554", "/1554/nedre eiker", "/2021/st/15/1554", true⟩
    ⟨"3", "/3/øvre bø", "/2021/st/15/1554/3", false⟩ (by decide) (by decide) (by decide)

/-! ## Idempotence of name normalization (C10) -/

/-- A character not in the case table is left unchanged by `lower`. -/
theorem pyLower_of_find_none (c : Char)
    (h : pyLowerTable.find? (fun p => p.1 = c) = none) : pyLower c = c := by
  unfold pyLower
  rw [h]
  rfl

/-- No lowercase image in the case table is itself an uppercase key. -/
theorem pyLowerTable_values_not_keys :
    ∀ p ∈ pyLowerTable, pyLowerTable.find? (fun q => q.1 = p.2) = none := by decide

/-- Lower-casing one character is idempotent. -/
theorem pyLower_idem (c : Char) : pyLower (pyLower c) = pyLower c := by
  rcases h : pyLowerTable.find? (fun p => p.1 = c) with - | p
  · rw [pyLower_of_find_none c h]
    exact pyLower_of_find_none c h
  · have hmem : p ∈ pyLowerTable := List.mem_of_find?_eq_some h
    rw [show pyLower c = p.2 by simp [pyLower, h]]
    exact pyLower_of_find_none p.2 (pyLowerTable_values_not_keys p hmem)

/-- Where the characters of a `replace` result come from. -/
theorem mem_replaceChar {c old : Char} {new l : List Char}
    (h : c ∈ replaceChar old new l) : c ∈ new ∨ (c ∈ l ∧ c ≠ old) := by
  unfold replaceChar at h
  rcases List.mem_flatMap.mp h with ⟨x, hx, hc⟩
  by_cases hxo : x = old
  · rw [if_pos hxo] at hc
    exact Or.inl hc
  · rw [if_neg hxo] at hc
    have := List.mem_singleton.mp hc
    subst this
    exact Or.inr ⟨hx, hxo⟩

/-- `replace` is the identity when the pattern does not occur. -/
theorem replaceChar_of_not_mem {old : Char} (new : List Char) {l : List Char}
    (h : old ∉ l) : replaceChar old new l = l := by
  induction l with
  | nil => rfl
  | cons x xs ih =>
    have hx : ¬(x = old) := fun he => h (he ▸ List.mem_cons_self x xs)
    show (if x = old then new else [x]) ++ replaceChar old new xs = x :: xs
    rw [if_neg hx, ih (fun hm => h (List.mem_cons_of_mem x hm))]
    rfl

/-- Character-level invariants established by the replacement pipeline of
`_normalize_name`: every character of the result is fixed by lower-casing
and is none of the seven replaced characters. -/
theorem applyReplacements_chars (l : List Char) :
    ∀ c ∈ applyReplacements (l.map pyLower),
      pyLower c = c ∧ c ≠ 'æ' ∧ c ≠ 'ø' ∧ c ≠ 'å' ∧ c ≠ ' ' ∧ c ≠ '.' ∧ c ≠ ',' ∧ c ≠ '+' := by
  intro c hc
  unfold applyReplacements at hc
  rcases mem_replaceChar hc with hnew | ⟨hc, hne7⟩
  · have h2 : c ∈ ['-', 'o', 'g', '-'] := hnew
    simp only [List.mem_cons, List.not_mem_nil, or_false] at h2
    rcases h2 with rfl | rfl | rfl | rfl <;> exact ⟨by decide, by decide, by decide,
      by decide, by decide, by decide, by decide, by decide⟩
  rcases mem_replaceChar hc with hnew | ⟨hc, hne6⟩
  · cases hnew
  rcases mem_replaceChar hc with hnew | ⟨hc, hne5⟩
  · cases hnew
  rcases mem_replaceChar hc with hnew | ⟨hc, hne4⟩
  · have h2 : c ∈ ['-'] := hnew
    simp only [List.mem_cons, List.not_mem_nil, or_false] at h2
    rcases h2 with rfl
    exact ⟨by decide, by decide, by decide, by decide, by decide, by decide,
      by decide, by decide⟩
  rcases mem_replaceChar hc with hnew | ⟨hc, hne3⟩
  · have h2 : c ∈ ['a'] := hnew
    simp only [List.mem_cons, List.not_mem_nil, or_false] at h2
    rcases h2 with rfl
    exact ⟨by decide, by decide, by decide, by decide, by decide, by decide,
      by decide, by decide⟩
  rcases mem_replaceChar hc with hnew | ⟨hc, hne2⟩
  · have h2 : c ∈ ['o'] := hnew
    simp only [List.mem_cons, List.not_mem_nil, or_false] at h2
    rcases h2 with rfl
    exact ⟨by decide, by decide, by decide, by decide, by decide, by decide,
      by decide, by decide⟩
  rcases mem_replaceChar hc with hnew | ⟨hc, hne1⟩
  · have h2 : c ∈ ['a', 'e'] := hnew
    simp only [List.mem_cons, List.not_mem_nil, or_false] at h2
    rcases h2 with rfl | rfl <;> exact ⟨by decide, by decide, by decide,
      by decide, by decide, by decide, by decide, by decide⟩
  rcases List.mem_map.mp hc with ⟨d, -, rfl⟩
  exact ⟨pyLower_idem d, hne1, hne2, hne3, hne4, hne5, hne6, hne7⟩

/-- `'--' in (x + rest)` reduces to `'--' in rest` when the two heads are
not both hyphens. -/
theorem hasDoubleHyphen_cons_eq {x : Char} {rest : List Char}
    (hside : ∀ tail, x = '-' → rest = '-' :: tail → False) :
    hasDoubleHyphen (x :: rest) = hasDoubleHyphen rest := by
  simp [hasDoubleHyphen, hside]

/-- One replacement pass never lengthens the string. -/
theorem replaceDoubleHyphen_length_le (l : List Char) :
    (replaceDoubleHyphen l).length ≤ l.length := by
  induction l using replaceDoubleHyphen.induct with
  | case1 rest ih => simp only [replaceDoubleHyphen, List.length_cons]; omega
  | case2 c rest h ih =>
    simp only [replaceDoubleHyphen, List.length_cons]
    omega
  | case3 => simp [replaceDoubleHyphen]

/-- One replacement pass strictly shortens a string containing a double
hyphen. -/
theorem replaceDoubleHyphen_length_lt (l : List Char) :
    hasDoubleHyphen l = true → (replaceDoubleHyphen l).length < l.length := by
  induction l using replaceDoubleHyphen.induct with
  | case1 rest ih =>
    intro h
    have := replaceDoubleHyphen_length_le rest
    simp only [replaceDoubleHyphen, List.length_cons]
    omega
  | case2 c rest hside ih =>
    intro h
    have hrest : hasDoubleHyphen rest = true := by
      rw [← hasDoubleHyphen_cons_eq hside]
      exact h
    have := ih hrest
    simp only [replaceDoubleHyphen, List.length_cons]
    omega
  | case3 =>
    intro h
    cases h

/-- Characters of a replacement pass come from the input. -/
theorem mem_replaceDoubleHyphen {c : Char} (l : List Char) :
    c ∈ replaceDoubleHyphen l → c ∈ l := by
  induction l using replaceDoubleHyphen.induct with
  | case1 rest ih =>
    intro h
    simp only [replaceDoubleHyphen, List.mem_cons] at h
    rcases h with rfl | h
    · simp
    · exact List.mem_cons_of_mem _ (List.mem_cons_of_mem _ (ih h))
  | case2 x rest hside ih =>
    intro h
    simp only [replaceDoubleHyphen, List.mem_cons] at h
    rcases h with rfl | h
    · simp
    · exact List.mem_cons_of_mem x (ih h)
  | case3 =>
    intro h
    cases h

/-- With enough fuel the collapse loop reaches a double-hyphen-free
string. -/
theorem hasDoubleHyphen_collapseGo (fuel : Nat) :
    ∀ l : List Char, l.length ≤ fuel → hasDoubleHyphen (collapseGo fuel l) = false := by
  induction fuel with
  | zero =>
    intro l hl
    have : l = [] := List.length_eq_zero.mp (Nat.le_zero.mp hl)
    subst this
    rfl
  | succ n ih =>
    intro l hl
    by_cases hdd : hasDoubleHyphen l = true
    · have hlt := replaceDoubleHyphen_length_lt l hdd
      simp only [collapseGo, hdd, if_true]
      exact ih (replaceDoubleHyphen l) (by omega)
    · simp only [collapseGo, hdd, if_false]
      exact (Bool.not_eq_true _) ▸ hdd

/-- Characters of the collapse loop's result come from its input. -/
theorem mem_collapseGo {c : Char} (fuel : Nat) :
    ∀ l : List Char, c ∈ collapseGo fuel l → c ∈ l := by
  induction fuel with
  | zero => exact fun l h => h
  | succ n ih =>
    intro l h
    by_cases hdd : hasDoubleHyphen l = true
    · simp only [collapseGo, hdd, if_true] at h
      exact mem_replaceDoubleHyphen l (ih (replaceDoubleHyphen l) h)
    · simpa only [collapseGo, hdd, if_false] using h

/-- The collapse loop leaves a double-hyphen-free string unchanged. -/
theorem collapseGo_of_neg (fuel : Nat) (l : List Char)
    (h : hasDoubleHyphen l = false) : collapseGo fuel l = l := by
  cases fuel with
  | zero => rfl
  | succ n => simp [collapseGo, h]

/-- `'--' in name` is the infix relation with the two-hyphen string. -/
theorem hasDoubleHyphen_iff_dd (l : List Char) :
    hasDoubleHyphen l = true ↔ ['-', '-'] <:+: l := by
  induction l using hasDoubleHyphen.induct with
  | case1 rest =>
    simp only [hasDoubleHyphen, true_iff]
    exact ⟨[], rest, rfl⟩
  | case2 c rest hside ih =>
    rw [hasDoubleHyphen_cons_eq hside, ih, List.infix_cons_iff]
    constructor
    · exact Or.inr
    · rintro (hpre | hinf)
      · rcases hpre with ⟨t, ht⟩
        simp only [List.cons_append, List.append_nil] at ht
        cases ht
        exact (hside t rfl rfl).elim
      · exact hinf
  | case3 =>
    constructor
    · intro h
      cases h
    · intro hinf
      have hlen := hinf.sublist.length_le
      simp at hlen

/-- An infix of a double-hyphen-free string is double-hyphen-free. -/
theorem hasDoubleHyphen_false_of_infix {l m : List Char} (hinf : m <:+: l)
    (h : hasDoubleHyphen l = false) : hasDoubleHyphen m = false := by
  by_contra hm
  simp only [Bool.not_eq_false] at hm
  have hm2 := (hasDoubleHyphen_iff_dd m).mp hm
  have := (hasDoubleHyphen_iff_dd l).mpr (hm2.trans hinf)
  rw [this] at h
  cases h

/-- The stripped string sits inside the original. -/
theorem stripDash_dd (l : List Char) : stripDash l <:+: l := by
  unfold stripDash
  have h1 : l.dropWhile (fun c => c = '-') <:+ l := List.dropWhile_suffix _
  have h2 : ((l.dropWhile (fun c => c = '-')).reverse.dropWhile (fun c => c = '-')).reverse <+:
      ((l.dropWhile (fun c => c = '-')).reverse).reverse :=
    List.reverse_prefix.mpr (List.dropWhile_suffix _)
  rw [List.reverse_reverse] at h2
  exact (h2.isInfix).trans h1.isInfix

/-- The head surviving `dropWhile` fails the predicate. -/
theorem head?_dropWhile {p : Char → Bool} {l : List Char} {c : Char}
    (h : (l.dropWhile p).head? = some c) : p c = false := by
  induction l with
  | nil => cases h
  | cons x xs ih =>
    rw [List.dropWhile_cons] at h
    by_cases hx : p x
    · rw [if_pos hx] at h
      exact ih h
    · rw [if_neg hx] at h
      cases h
      exact (Bool.not_eq_true _) ▸ hx

/-- A non-empty prefix shares its first character with the whole. -/
theorem head?_of_isPrefix {a r : List Char} {c : Char} (hpre : a <+: r)
    (h : a.head? = some c) : r.head? = some c := by
  rcases hpre with ⟨t, rfl⟩
  rcases a with - | ⟨x, xs⟩
  · cases h
  · cases h
    rfl

/-- The first character of a stripped string is not a hyphen. -/
theorem stripDash_head {l : List Char} {c : Char}
    (h : (stripDash l).head? = some c) : c ≠ '-' := by
  unfold stripDash at h
  have hpre : ((l.dropWhile (fun c => c = '-')).reverse.dropWhile (fun c => c = '-')).reverse <+:
      ((l.dropWhile (fun c => c = '-')).reverse).reverse :=
    List.reverse_prefix.mpr (List.dropWhile_suffix _)
  rw [List.reverse_reverse] at hpre
  have hr := head?_of_isPrefix hpre h
  have hfail := head?_dropWhile hr
  intro hc
  subst hc
  simp at hfail

/-- The last character of a stripped string is not a hyphen. -/
theorem stripDash_getLast {l : List Char} {c : Char}
    (h : (stripDash l).getLast? = some c) : c ≠ '-' := by
  unfold stripDash at h
  rw [List.getLast?_reverse] at h
  have hfail := head?_dropWhile h
  intro hc
  subst hc
  simp at hfail

/-- `strip` is the identity when neither end carries the stripped
character. -/
theorem stripDash_eq_self {l : List Char}
    (hh : ∀ c, l.head? = some c → c ≠ '-') (hl : ∀ c, l.getLast? = some c → c ≠ '-') :
    stripDash l = l := by
  unfold stripDash
  have h1 : l.dropWhile (fun c => c = '-') = l := by
    rcases l with - | ⟨x, xs⟩
    · rfl
    · have hx : x ≠ '-' := hh x rfl
      rw [List.dropWhile_cons, if_neg (by simpa using hx)]
  rw [h1]
  have h2 : l.reverse.dropWhile (fun c => c = '-') = l.reverse := by
    rcases hrev : l.reverse with - | ⟨x, xs⟩
    · rfl
    · have hlast : l.getLast? = some x := by
        rw [← List.head?_reverse, hrev]
        rfl
      have hx : x ≠ '-' := hl x hlast
      rw [List.dropWhile_cons, if_neg (by simpa using hx)]
  rw [h2, List.reverse_reverse]

/-- C10: `_normalize_name` is idempotent — normalizing an
already-normalized name yields it unchanged, for every input string. -/
theorem normalize_name_idempotent (l : List Char) :
    normalizeName (normalizeName l) = normalizeName l := by
  have hchars : ∀ c ∈ normalizeName l,
      (pyIsAlnum c || decide (c = '-')) = true ∧ pyLower c = c ∧
      c ≠ 'æ' ∧ c ≠ 'ø' ∧ c ≠ 'å' ∧ c ≠ ' ' ∧ c ≠ '.' ∧ c ≠ ',' ∧ c ≠ '+' := by
    intro c hc
    unfold normalizeName at hc
    have hc2 := (stripDash_dd _).subset hc
    have hc3 := mem_collapseGo _ _ hc2
    rcases List.mem_filter.mp hc3 with ⟨hc4, hpred⟩
    have hfacts := applyReplacements_chars l c hc4
    exact ⟨hpred, hfacts.1, hfacts.2.1, hfacts.2.2.1, hfacts.2.2.2.1,
      hfacts.2.2.2.2.1, hfacts.2.2.2.2.2.1, hfacts.2.2.2.2.2.2.1, hfacts.2.2.2.2.2.2.2⟩
  have hnodd : hasDoubleHyphen (normalizeName l) = false := by
    unfold normalizeName
    exact hasDoubleHyphen_false_of_infix (stripDash_dd _)
      (hasDoubleHyphen_collapseGo _ _ (Nat.le_refl _))
  have hmap : (normalizeName l).map pyLower = normalizeName l := by
    rw [List.map_congr_left (fun c hc => (hchars c hc).2.1)]
    exact List.map_id _
  have happ : applyReplacements (normalizeName l) = normalizeName l := by
    unfold applyReplacements
    rw [replaceChar_of_not_mem "ae".data (fun hm => (hchars _ hm).2.2.1 rfl),
      replaceChar_of_not_mem "o".data (fun hm => (hchars _ hm).2.2.2.1 rfl),
      replaceChar_of_not_mem "a".data (fun hm => (hchars _ hm).2.2.2.2.1 rfl),
      replaceChar_of_not_mem "-".data (fun hm => (hchars _ hm).2.2.2.2.2.1 rfl),
      replaceChar_of_not_mem [] (fun hm => (hchars _ hm).2.2.2.2.2.2.1 rfl),
      replaceChar_of_not_mem [] (fun hm => (hchars _ hm).2.2.2.2.2.2.2.1 rfl),
      replaceChar_of_not_mem "-og-".data (fun hm => (hchars _ hm).2.2.2.2.2.2.2.2 rfl)]
  have hfil : List.filter (fun c => pyIsAlnum c || decide (c = '-')) (normalizeName l) =
      normalizeName l :=
    List.filter_eq_self.mpr (fun c hc => (hchars c hc).1)
  have hcoll : collapseHyphens (normalizeName l) = normalizeName l :=
    collapseGo_of_neg _ _ hnodd
  have hstrip : stripDash (normalizeName l) = normalizeName l :=
    stripDash_eq_self (fun c hc => stripDash_head hc) (fun c hc => stripDash_getLast hc)
  calc normalizeName (normalizeName l)
      = stripDash (collapseHyphens (List.filter (fun c => pyIsAlnum c || decide (c = '-'))
          (applyReplacements ((normalizeName l).map pyLower)))) := rfl
    _ = normalizeName l := by rw [hmap, happ, hfil, hcoll, hstrip]

/-! ## Append-only snapshot store and the latest pointer (C6) -/

/-- Writing a fresh name appends the file. -/
theorem writeFile_fresh {files : List (String × Json)} {name : String} (content : Json)
    (h : name ∉ files.map Prod.fst) :
    writeFile files name content = files ++ [(name, content)] := by
  have hany : ¬(files.any (fun p => p.1 = name) = true) := by
    rw [List.any_eq_true]
    rintro ⟨p, hp, hpn⟩
    have hpn2 : p.1 = name := by simpa using hpn
    exact h (hpn2 ▸ List.mem_map_of_mem Prod.fst hp)
  unfold writeFile
  rw [if_neg hany]

/-- Looking up a freshly appended file finds it. -/
theorem find?_append_fresh {files : List (String × Json)} {name : String} (d : Json)
    (h : name ∉ files.map Prod.fst) :
    (files ++ [(name, d)]).find? (fun q => q.1 = name) = some (name, d) := by
  induction files with
  | nil => simp
  | cons f fs ih =>
    have hf : ¬(f.1 = name) := fun he => h (by simp [← he])
    rw [List.cons_append, List.find?_cons_of_neg _ (by simpa using hf)]
    exact ih (fun hm => h (List.mem_cons_of_mem _ hm))

/-- The last element of a cons, as an option with explicit default. -/
theorem getLast?_cons_eq {α : Type} (a : α) (l : List α) :
    (a :: l).getLast? = some ((l.getLast?).getD a) := by
  rcases l with - | ⟨b, bs⟩
  · rfl
  · rw [List.getLast?_cons_cons]
    rcases hlast : (b :: bs).getLast? with - | c
    · exact absurd (List.getLast?_eq_none_iff.mp hlast) (by simp)
    · rfl

/-- Invariant run of `process_entity` steps: starting from a store whose
latest pointer references its last written payload, a run of fetches with
fresh, pairwise-distinct timestamps, truthy payloads, each meaningfully
changed from the previous one, appends exactly the fetched payloads and
leaves the pointer on the last of them. -/
theorem processEntitySteps_all_changed (pairs : List (String × Json)) :
    ∀ (files0 : List (String × Json)) (pn : String) (pd : Json),
    (∀ p ∈ pairs, (p.1 ++ ".json") ∉ files0.map Prod.fst) →
    ((pairs.map (fun p => p.1 ++ ".json")).Nodup) →
    (files0.find? (fun q => q.1 = pn)) = some (pn, pd) →
    (∀ p ∈ pairs, jsonTruthy p.2 = true) →
    List.Chain' (fun a b => hasMeaningfulChanges a b = true) (pd :: pairs.map Prod.snd) →
    pairs.foldl (fun st p => processEntityStep st (some p.2) p.1) ⟨files0, some pn⟩ =
      ⟨files0 ++ pairs.map (fun p => (p.1 ++ ".json", p.2)),
        some (((pairs.map (fun p => p.1 ++ ".json")).getLast?).getD pn)⟩ := by
  induction pairs with
  | nil =>
    intro files0 pn pd hfresh hnd hfind htr hch
    simp
  | cons hd rest ih =>
    intro files0 pn pd hfresh hnd hfind htr hch
    obtain ⟨t, d⟩ := hd
    simp only [List.map_cons] at hch
    have htd : jsonTruthy d = true := htr (t, d) (List.mem_cons_self _ _)
    have hmc : hasMeaningfulChanges pd d = true := (List.chain'_cons.mp hch).1
    have hfr : (t ++ ".json") ∉ files0.map Prod.fst :=
      hfresh (t, d) (List.mem_cons_self _ _)
    have hstep : processEntityStep ⟨files0, some pn⟩ (some d) t =
        ⟨files0 ++ [(t ++ ".json", d)], some (t ++ ".json")⟩ := by
      show (if jsonTruthy d = false then (⟨files0, some pn⟩ : SnapshotStore)
        else
          match ((⟨files0, some pn⟩ : SnapshotStore).files.find? (fun p => p.1 = pn)).map
              (fun p => p.2) with
          | some previous =>
            if hasMeaningfulChanges previous d then saveSnapshot ⟨files0, some pn⟩ d t
            else ⟨files0, some pn⟩
          | none => (⟨files0, some pn⟩ : SnapshotStore)) = _
      rw [if_neg (by simp [htd])]
      show (match (files0.find? (fun p => p.1 = pn)).map (fun p => p.2) with
        | some previous =>
          if hasMeaningfulChanges previous d then saveSnapshot ⟨files0, some pn⟩ d t
          else ⟨files0, some pn⟩
        | none => (⟨files0, some pn⟩ : SnapshotStore)) = _
      rw [hfind]
      show (if hasMeaningfulChanges pd d then saveSnapshot ⟨files0, some pn⟩ d t
        else (⟨files0, some pn⟩ : SnapshotStore)) = _
      rw [if_pos hmc]
      unfold saveSnapshot
      show (⟨writeFile files0 (t ++ ".json") d, some (t ++ ".json")⟩ : SnapshotStore) = _
      rw [writeFile_fresh d hfr]
    rw [List.foldl_cons, hstep]
    have hnd2 : ((rest.map (fun p => p.1 ++ ".json")).Nodup) := by
      simp only [List.map_cons, List.nodup_cons] at hnd
      exact hnd.2
    have hne : (t ++ ".json") ∉ rest.map (fun p => p.1 ++ ".json") := by
      simp only [List.map_cons, List.nodup_cons] at hnd
      exact hnd.1
    have ihres := ih (files0 ++ [(t ++ ".json", d)]) (t ++ ".json") d
      (by
        intro p hp
        simp only [List.map_append, List.mem_append, List.map_cons, List.map_nil,
          List.mem_singleton]
        rintro (hmem | hmem)
        · exact hfresh p (List.mem_cons_of_mem _ hp) hmem
        · exact hne (hmem ▸ List.mem_map_of_mem (fun p => p.1 ++ ".json") hp))
      hnd2
      (find?_append_fresh d hfr)
      (fun p hp => htr p (List.mem_cons_of_mem _ hp))
      (List.chain'_cons.mp hch).2
    rw [ihres]
    simp only [List.map_cons, List.append_assoc, List.singleton_append]
    rw [getLast?_cons_eq (t ++ ".json") (rest.map (fun p => p.1 ++ ".json"))]
    rfl

/-- C6 (amended): for one entity, a run of N fetches each truthy, each
detected as changed against the previous payload (or first-time), and
carrying pairwise-distinct minute timestamps — as the monitor's tier
intervals of at least 300 seconds between successive processings of an
entity guarantee — leaves exactly N snapshot files holding exactly the N
fetched payloads in write order (none overwritten or mutated), with the
latest pointer referencing the N-th. -/
theorem snapshot_store_append_only (pairs : List (String × Json))
    (hnd : (pairs.map (fun p => p.1 ++ ".json")).Nodup)
    (htr : ∀ p ∈ pairs, jsonTruthy p.2 = true)
    (hch : List.Chain' (fun a b => hasMeaningfulChanges a b = true) (pairs.map Prod.snd)) :
    (pairs.foldl (fun st p => processEntityStep st (some p.2) p.1) emptyStore).files =
      pairs.map (fun p => (p.1 ++ ".json", p.2))
    ∧ (pairs.foldl (fun st p => processEntityStep st (some p.2) p.1) emptyStore).latest =
      (pairs.map (fun p => p.1 ++ ".json")).getLast? := by
  rcases pairs with - | ⟨⟨t, d⟩, rest⟩
  · exact ⟨rfl, rfl⟩
  simp only [List.map_cons] at hch
  have htd : jsonTruthy d = true := htr (t, d) (List.mem_cons_self _ _)
  have hstep : processEntityStep emptyStore (some d) t =
      ⟨[(t ++ ".json", d)], some (t ++ ".json")⟩ := by
    show (if jsonTruthy d = false then emptyStore else saveSnapshot emptyStore d t) = _
    rw [if_neg (by simp [htd])]
    rfl
  have hnd2 : ((rest.map (fun p => p.1 ++ ".json")).Nodup) := by
    simp only [List.map_cons, List.nodup_cons] at hnd
    exact hnd.2
  have hne : (t ++ ".json") ∉ rest.map (fun p => p.1 ++ ".json") := by
    simp only [List.map_cons, List.nodup_cons] at hnd
    exact hnd.1
  have ihres := processEntitySteps_all_changed rest [(t ++ ".json", d)] (t ++ ".json") d
    (by
      intro p hp
      simp only [List.map_cons, List.map_nil, List.mem_singleton]
      intro hmem
      exact hne (hmem ▸ List.mem_map_of_mem (fun p => p.1 ++ ".json") hp))
    hnd2
    (by simp)
    (fun p hp => htr p (List.mem_cons_of_mem _ hp))
    hch
  rw [List.foldl_cons, hstep, ihres]
  refine ⟨by simp, ?_⟩
  show some ((rest.map (fun p => p.1 ++ ".json")).getLast?.getD (t ++ ".json")) =
    ((t ++ ".json") :: rest.map (fun p => p.1 ++ ".json")).getLast?
  rw [getLast?_cons_eq (t ++ ".json") (rest.map (fun p => p.1 ++ ".json"))]

/-- Witness for C6 (amended): two changed fetches one timestamp apart
leave two files and the pointer on the second. -/
theorem snapshot_store_append_only_witness :
    ([("2025-01-01__1200", Json.obj [("a".data, Json.num 1)]),
      ("2025-01-01__1205", Json.obj [("a".data, Json.num 2)])].foldl
        (fun st p => processEntityStep st (some p.2) p.1) emptyStore).files =
      [("2025-01-01__1200.json", Json.obj [("a".data, Json.num 1)]),
       ("2025-01-01__1205.json", Json.obj [("a".data, Json.num 2)])]
    ∧ ([("2025-01-01__1200", Json.obj [("a".data, Json.num 1)]),
      ("2025-01-01__1205", Json.obj [("a".data, Json.num 2)])].foldl
        (fun st p => processEntityStep st (some p.2) p.1) emptyStore).latest =
      some "2025-01-01__1205.json" :=
  snapshot_store_append_only
    [("2025-01-01__1200", Json.obj [("a".data, Json.num 1)]),
     ("2025-01-01__1205", Json.obj [("a".data, Json.num 2)])]
    (by decide) (by decide)
    (List.chain'_cons.mpr ⟨by decide, List.chain'_singleton _⟩)

/-- C6 (counterexample): two successive fetches in the same wall-clock
minute, the second detected as changed, produce one snapshot file — the
first payload has been overwritten in place — refuting the claim's
"exactly N distinct files, none overwritten" for N = 2 without the
distinct-timestamp condition. -/
theorem snapshot_overwritten_on_equal_timestamps :
    (processEntityStep
        (processEntityStep emptyStore (some (Json.obj [("a".data, Json.num 1)])) "2025-01-01__1200")
        (some (Json.obj [("a".data, Json.num 2)])) "2025-01-01__1200").files =
      [("2025-01-01__1200.json", Json.obj [("a".data, Json.num 2)])]
    ∧ hasMeaningfulChanges (Json.obj [("a".data, Json.num 1)])
        (Json.obj [("a".data, Json.num 2)]) = true :=
  ⟨rfl, by decide⟩

/-! ## Change detection is structural equality up to key order (C7):
digits, number representations, and string escapes -/

/-- Character order is the order of code points. -/
theorem char_le_iff (a b : Char) : a ≤ b ↔ a.toNat ≤ b.toNat := by
  rw [Char.le_def]
  exact ⟨fun h => h, fun h => h⟩

/-- Characters with equal code points are equal. -/
theorem char_toNat_inj {a b : Char} (h : a.toNat = b.toNat) : a = b := by
  rw [← Char.ofNat_toNat a, h, Char.ofNat_toNat]

/-- The code point of a digit character built from a digit value. -/
theorem toNat_ofNat_digit (n : Nat) (h : n < 58) : (Char.ofNat (48 + n)).toNat = 48 + n := by
  have hv : (48 + n).isValidChar := Or.inl (by omega)
  rw [Char.ofNat, dif_pos hv]
  rfl

/-- A digit character built from a digit value is a digit. -/
theorem isDigitChar_ofNat (n : Nat) (h : n < 10) :
    isDigitChar (Char.ofNat (48 + n)) = true := by
  unfold isDigitChar
  have h0 : ('0' ≤ Char.ofNat (48 + n)) := by
    rw [char_le_iff, toNat_ofNat_digit n (by omega)]
    show 48 ≤ 48 + n
    omega
  have h9 : (Char.ofNat (48 + n) ≤ '9') := by
    rw [char_le_iff, toNat_ofNat_digit n (by omega)]
    show 48 + n ≤ 57
    omega
  simp [h0, h9]

/-- A digit character has code point between 48 and 57. -/
theorem isDigitChar_toNat {c : Char} (h : isDigitChar c = true) :
    48 ≤ c.toNat ∧ c.toNat ≤ 57 := by
  unfold isDigitChar at h
  rcases Bool.and_eq_true_iff.mp h with ⟨h1, h2⟩
  exact ⟨(char_le_iff '0' c).mp (of_decide_eq_true h1),
    (char_le_iff c '9').mp (of_decide_eq_true h2)⟩

/-- Value, digit-ness, non-emptiness and length-weighted value of the
fueled digit printer, for sufficient fuel. -/
theorem natReprGo_spec (fuel : Nat) :
    ∀ n : Nat, n < fuel →
      (∀ a : Nat, (natReprGo fuel n).foldl (fun a c => 10 * a + (c.toNat - 48)) a =
        a * 10 ^ (natReprGo fuel n).length + n)
      ∧ (∀ c ∈ natReprGo fuel n, isDigitChar c = true)
      ∧ natReprGo fuel n ≠ [] := by
  induction fuel with
  | zero => intro n hn; omega
  | succ m ih =>
    intro n hn
    by_cases h10 : n < 10
    · refine ⟨?_, ?_, ?_⟩
      · intro a
        simp only [natReprGo, if_pos h10, List.foldl_cons, List.foldl_nil,
          List.length_cons, List.length_nil]
        rw [toNat_ofNat_digit n (by omega)]
        ring_nf
        omega
      · intro c hc
        simp only [natReprGo, if_pos h10, List.mem_singleton] at hc
        subst hc
        exact isDigitChar_ofNat n h10
      · simp [natReprGo, if_pos h10]
    · have hdiv : n / 10 < m := by omega
      obtain ⟨hval, hdig, hne⟩ := ih (n / 10) hdiv
      refine ⟨?_, ?_, ?_⟩
      · intro a
        simp only [natReprGo, if_neg h10, List.foldl_append, List.foldl_cons,
          List.foldl_nil, List.length_append, List.length_cons, List.length_nil]
        rw [hval a, toNat_ofNat_digit (n % 10) (by omega)]
        have h1 : 48 + n % 10 - 48 = n % 10 := by omega
        rw [h1]
        have h2 : 10 * (a * 10 ^ (natReprGo m (n / 10)).length + n / 10) + n % 10 =
            a * (10 ^ (natReprGo m (n / 10)).length * 10) + (10 * (n / 10) + n % 10) := by ring
        rw [h2, Nat.pow_succ]
        omega
      · intro c hc
        simp only [natReprGo, if_neg h10, List.mem_append, List.mem_singleton] at hc
        rcases hc with hc | rfl
        · exact hdig c hc
        · exact isDigitChar_ofNat (n % 10) (by omega)
      · simp [natReprGo, if_neg h10]

/-- The printed digits of a natural number evaluate back to it. -/
theorem digitsVal_natRepr (n : Nat) : digitsVal (natRepr n) = n := by
  have h := ((natReprGo_spec (n + 1) n (by omega)).1) 0
  unfold digitsVal natRepr
  rw [h]
  omega

/-- Every character of a printed natural number is a digit. -/
theorem natRepr_digits (n : Nat) : ∀ c ∈ natRepr n, isDigitChar c = true :=
  (natReprGo_spec (n + 1) n (by omega)).2.1

/-- A printed natural number is never empty. -/
theorem natRepr_ne_nil (n : Nat) : natRepr n ≠ [] :=
  (natReprGo_spec (n + 1) n (by omega)).2.2

/-- Printing natural numbers is injective. -/
theorem natRepr_inj {m n : Nat} (h : natRepr m = natRepr n) : m = n := by
  have := digitsVal_natRepr m
  rw [h, digitsVal_natRepr] at this
  omega

/-- A maximal digit run followed by a non-digit continuation is uniquely
delimited. -/
theorem digitRun_unique (d1 : List Char) :
    ∀ (d2 s t : List Char),
    (∀ c ∈ d1, isDigitChar c = true) → (∀ c ∈ d2, isDigitChar c = true) →
    (∀ c, s.head? = some c → isDigitChar c = false) →
    (∀ c, t.head? = some c → isDigitChar c = false) →
    d1 ++ s = d2 ++ t → d1 = d2 ∧ s = t := by
  induction d1 with
  | nil =>
    intro d2 s t h1 h2 hs ht heq
    rcases d2 with - | ⟨c2, d2'⟩
    · exact ⟨rfl, heq⟩
    · rw [List.nil_append] at heq
      have hhead : s.head? = some c2 := by rw [heq]; rfl
      have := hs c2 hhead
      rw [h2 c2 (List.mem_cons_self _ _)] at this
      cases this
  | cons c1 d1' ih =>
    intro d2 s t h1 h2 hs ht heq
    rcases d2 with - | ⟨c2, d2'⟩
    · rw [List.nil_append] at heq
      have hhead : t.head? = some c1 := by rw [← heq]; rfl
      have := ht c1 hhead
      rw [h1 c1 (List.mem_cons_self _ _)] at this
      cases this
    · simp only [List.cons_append, List.cons.injEq] at heq
      obtain ⟨rfl, heq2⟩ := heq
      obtain ⟨hd, hst⟩ := ih d2' s t (fun c hc => h1 c (List.mem_cons_of_mem _ hc))
        (fun c hc => h2 c (List.mem_cons_of_mem _ hc)) hs ht heq2
      exact ⟨hd ▸ rfl, hst⟩

/-- A printed integer followed by a non-digit continuation is uniquely
delimited: the integer and the continuation are both determined. -/
theorem intRepr_unique {m n : Int} {s t : List Char}
    (heq : intRepr m ++ s = intRepr n ++ t)
    (hs : ∀ c, s.head? = some c → isDigitChar c = false)
    (ht : ∀ c, t.head? = some c → isDigitChar c = false) :
    m = n ∧ s = t := by
  have hdash : isDigitChar '-' = false := by decide
  unfold intRepr at heq
  by_cases hm : m < 0 <;> by_cases hn : n < 0
  · rw [if_pos hm, if_pos hn] at heq
    simp only [List.cons_append, List.cons.injEq] at heq
    obtain ⟨hd, hval⟩ := digitRun_unique _ _ _ _ (natRepr_digits _) (natRepr_digits _)
      hs ht heq.2
    have := natRepr_inj hd
    exact ⟨by omega, hval⟩
  · rw [if_pos hm, if_neg hn] at heq
    rcases hne : natRepr n.natAbs with - | ⟨c, cs⟩
    · exact absurd hne (natRepr_ne_nil _)
    · rw [hne] at heq
      simp only [List.cons_append, List.cons.injEq] at heq
      have hcdig : isDigitChar c = true := natRepr_digits n.natAbs c (by rw [hne]; simp)
      rw [← heq.1, hdash] at hcdig
      cases hcdig
  · rw [if_neg hm, if_pos hn] at heq
    rcases hme : natRepr m.natAbs with - | ⟨c, cs⟩
    · exact absurd hme (natRepr_ne_nil _)
    · rw [hme] at heq
      simp only [List.cons_append, List.cons.injEq] at heq
      have hcdig : isDigitChar c = true := natRepr_digits m.natAbs c (by rw [hme]; simp)
      rw [heq.1, hdash] at hcdig
      cases hcdig
  · rw [if_neg hm, if_neg hn] at heq
    obtain ⟨hd, hst⟩ := digitRun_unique _ _ _ _ (natRepr_digits _) (natRepr_digits _)
      hs ht heq
    have := natRepr_inj hd
    exact ⟨by omega, hst⟩

/-- An escaped string closed by an unescaped quote is uniquely
delimited. -/
theorem escapeChars_unique (u : List Char) :
    ∀ (v r1 r2 : List Char),
    escapeChars u ++ '"' :: r1 = escapeChars v ++ '"' :: r2 → u = v ∧ r1 = r2 := by
  induction u with
  | nil =>
    intro v r1 r2 heq
    rcases v with - | ⟨c2, v'⟩
    · simp only [escapeChars, List.flatMap_nil, List.nil_append, List.cons.injEq] at heq
      exact ⟨rfl, heq.2⟩
    · exfalso
      by_cases hc2 : c2 = '"' ∨ c2 = '\\'
      · have : escapeChars (c2 :: v') = '\\' :: c2 :: escapeChars v' := by
          show (if c2 = '"' ∨ c2 = '\\' then ['\\', c2] else [c2]) ++ escapeChars v' = _
          rw [if_pos hc2]
          rfl
        rw [this] at heq
        simp only [escapeChars, List.flatMap_nil, List.nil_append, List.cons_append,
          List.cons.injEq] at heq
        exact absurd heq.1 (by decide)
      · have : escapeChars (c2 :: v') = c2 :: escapeChars v' := by
          show (if c2 = '"' ∨ c2 = '\\' then ['\\', c2] else [c2]) ++ escapeChars v' = _
          rw [if_neg hc2]
          rfl
        rw [this] at heq
        simp only [escapeChars, List.flatMap_nil, List.nil_append, List.cons_append,
          List.cons.injEq] at heq
        exact hc2 (Or.inl heq.1.symm)
  | cons c1 u' ih =>
    intro v r1 r2 heq
    rcases v with - | ⟨c2, v'⟩
    · exfalso
      by_cases hc1 : c1 = '"' ∨ c1 = '\\'
      · have : escapeChars (c1 :: u') = '\\' :: c1 :: escapeChars u' := by
          show (if c1 = '"' ∨ c1 = '\\' then ['\\', c1] else [c1]) ++ escapeChars u' = _
          rw [if_pos hc1]
          rfl
        rw [this] at heq
        simp only [escapeChars, List.flatMap_nil, List.nil_append, List.cons_append,
          List.cons.injEq] at heq
        exact absurd heq.1 (by decide)
      · have : escapeChars (c1 :: u') = c1 :: escapeChars u' := by
          show (if c1 = '"' ∨ c1 = '\\' then ['\\', c1] else [c1]) ++ escapeChars u' = _
          rw [if_neg hc1]
          rfl
        rw [this] at heq
        simp only [escapeChars, List.flatMap_nil, List.nil_append, List.cons_append,
          List.cons.injEq] at heq
        exact hc1 (Or.inl heq.1)
    · by_cases hc1 : c1 = '"' ∨ c1 = '\\' <;> by_cases hc2 : c2 = '"' ∨ c2 = '\\'
      · have e1 : escapeChars (c1 :: u') = '\\' :: c1 :: escapeChars u' := by
          show (if c1 = '"' ∨ c1 = '\\' then ['\\', c1] else [c1]) ++ escapeChars u' = _
          rw [if_pos hc1]
          rfl
        have e2 : escapeChars (c2 :: v') = '\\' :: c2 :: escapeChars v' := by
          show (if c2 = '"' ∨ c2 = '\\' then ['\\', c2] else [c2]) ++ escapeChars v' = _
          rw [if_pos hc2]
          rfl
        rw [e1, e2] at heq
        simp only [List.cons_append, List.cons.injEq] at heq
        obtain ⟨-, rfl, heq2⟩ := heq
        obtain ⟨hu, hr⟩ := ih v' r1 r2 heq2
        exact ⟨hu ▸ rfl, hr⟩
      · have e1 : escapeChars (c1 :: u') = '\\' :: c1 :: escapeChars u' := by
          show (if c1 = '"' ∨ c1 = '\\' then ['\\', c1] else [c1]) ++ escapeChars u' = _
          rw [if_pos hc1]
          rfl
        have e2 : escapeChars (c2 :: v') = c2 :: escapeChars v' := by
          show (if c2 = '"' ∨ c2 = '\\' then ['\\', c2] else [c2]) ++ escapeChars v' = _
          rw [if_neg hc2]
          rfl
        rw [e1, e2] at heq
        simp only [List.cons_append, List.cons.injEq] at heq
        exact absurd (Or.inr heq.1.symm) hc2
      · have e1 : escapeChars (c1 :: u') = c1 :: escapeChars u' := by
          show (if c1 = '"' ∨ c1 = '\\' then ['\\', c1] else [c1]) ++ escapeChars u' = _
          rw [if_neg hc1]
          rfl
        have e2 : escapeChars (c2 :: v') = '\\' :: c2 :: escapeChars v' := by
          show (if c2 = '"' ∨ c2 = '\\' then ['\\', c2] else [c2]) ++ escapeChars v' = _
          rw [if_pos hc2]
          rfl
        rw [e1, e2] at heq
        simp only [List.cons_append, List.cons.injEq] at heq
        exact absurd (Or.inr heq.1) hc1
      · have e1 : escapeChars (c1 :: u') = c1 :: escapeChars u' := by
          show (if c1 = '"' ∨ c1 = '\\' then ['\\', c1] else [c1]) ++ escapeChars u' = _
          rw [if_neg hc1]
          rfl
        have e2 : escapeChars (c2 :: v') = c2 :: escapeChars v' := by
          show (if c2 = '"' ∨ c2 = '\\' then ['\\', c2] else [c2]) ++ escapeChars v' = _
          rw [if_neg hc2]
          rfl
        rw [e1, e2] at heq
        simp only [List.cons_append, List.cons.injEq] at heq
        obtain ⟨rfl, heq2⟩ := heq
        obtain ⟨hu, hr⟩ := ih v' r1 r2 heq2
        exact ⟨hu ▸ rfl, hr⟩

/-! ## C7: serialisation heads, and uniqueness of serialised forms -/

/-- Constructor discriminators are at most 5. -/
theorem headTag_le (a : Json) : headTag a ≤ 5 := by
  cases a <;> simp [headTag]

/-- A digit character discriminates as a number head. -/
theorem charTag_digit {c : Char} (h : isDigitChar c = true) : charTag c = 2 := by
  have hn : ¬(c = 'n') := by rintro rfl; cases h
  have htf : ¬(c = 't' ∨ c = 'f') := by rintro (rfl | rfl) <;> cases h
  unfold charTag
  rw [if_neg hn, if_neg htf, if_pos (Or.inr h)]

/-- Every serialisation is a cons whose head discriminates the
constructor. -/
theorem serialize_shape (a : Json) :
    ∃ c tail, serialize a = c :: tail ∧ charTag c = headTag a := by
  cases a with
  | null => exact ⟨'n', _, rfl, rfl⟩
  | bool b =>
    cases b
    · exact ⟨'f', _, rfl, rfl⟩
    · exact ⟨'t', _, rfl, rfl⟩
  | num n =>
    by_cases hn : n < 0
    · refine ⟨'-', natRepr n.natAbs, ?_, rfl⟩
      show intRepr n = _
      rw [intRepr, if_pos hn]
    · rcases hrep : natRepr n.natAbs with - | ⟨c, cs⟩
      · exact absurd hrep (natRepr_ne_nil _)
      · refine ⟨c, cs, ?_, ?_⟩
        · show intRepr n = _
          rw [intRepr, if_neg hn, hrep]
        · have hdig : isDigitChar c = true := natRepr_digits n.natAbs c (by rw [hrep]; simp)
          rw [charTag_digit hdig]
          rfl
  | str s => exact ⟨'"', _, rfl, rfl⟩
  | arr xs => exact ⟨'[', _, rfl, rfl⟩
  | obj fs => exact ⟨lbrace, _, rfl, rfl⟩

/-- A serialisation never starts with a closing bracket, closing brace,
or comma. -/
theorem serialize_head_not_closing (a : Json) {c : Char} {tail : List Char}
    (h : serialize a = c :: tail) : c ≠ ']' ∧ c ≠ rbrace ∧ c ≠ ',' := by
  obtain ⟨c2, tail2, hser, htag⟩ := serialize_shape a
  rw [h] at hser
  obtain ⟨rfl, -⟩ := List.cons.injEq _ _ _ _ ▸ hser
  have hle := headTag_le a
  rw [← htag] at hle
  refine ⟨?_, ?_, ?_⟩ <;> rintro rfl <;> revert hle <;> decide

/-- Array bodies followed by the closing bracket are uniquely
delimited, given uniqueness for the elements. -/
theorem serItems_unique (N : Nat)
    (IH : ∀ (a b : Json) (s t : List Char), sizeOf a < N →
      serialize a ++ s = serialize b ++ t →
      (∀ c, s.head? = some c → isDigitChar c = false) →
      (∀ c, t.head? = some c → isDigitChar c = false) →
      a = b ∧ s = t) :
    ∀ (xs ys : List Json) (s t : List Char),
    (∀ x ∈ xs, sizeOf x < N) →
    serItems xs ++ ']' :: s = serItems ys ++ ']' :: t →
    xs = ys ∧ s = t := by
  intro xs
  induction xs with
  | nil =>
    intro ys s t hsz heq
    rcases ys with - | ⟨y, ys'⟩
    · simp only [serItems, List.nil_append, List.cons.injEq] at heq
      exact ⟨rfl, heq.2⟩
    · exfalso
      obtain ⟨c, tail, hser, -⟩ := serialize_shape y
      obtain ⟨h1, -, -⟩ := serialize_head_not_closing y hser
      rcases ys' with - | ⟨z, zs⟩
      · have h2 : (']' :: s : List Char) = serialize y ++ (']' :: t) := heq
        rw [hser] at h2
        injection h2 with hhead htail
        exact h1 hhead.symm
      · have hR : serItems (y :: z :: zs) ++ ']' :: t =
            serialize y ++ (',' :: ' ' :: (serItems (z :: zs) ++ ']' :: t)) := by
          show (serialize y ++ ',' :: ' ' :: serItems (z :: zs)) ++ ']' :: t = _
          rw [List.append_assoc]
          rfl
        have h2 : (']' :: s : List Char) =
            serialize y ++ (',' :: ' ' :: (serItems (z :: zs) ++ ']' :: t)) := by
          rw [← hR]
          exact heq
        rw [hser] at h2
        injection h2 with hhead htail
        exact h1 hhead.symm
  | cons x xs' ihx =>
    intro ys s t hsz heq
    have hszx : sizeOf x < N := hsz x (List.mem_cons_self _ _)
    rcases ys with - | ⟨y, ys'⟩
    · exfalso
      obtain ⟨c, tail, hser, -⟩ := serialize_shape x
      obtain ⟨h1, -, -⟩ := serialize_head_not_closing x hser
      rcases xs' with - | ⟨z, zs⟩
      · have h2 : (']' :: t : List Char) = serialize x ++ (']' :: s) := heq.symm
        rw [hser] at h2
        injection h2 with hhead htail
        exact h1 hhead.symm
      · have hL : serItems (x :: z :: zs) ++ ']' :: s =
            serialize x ++ (',' :: ' ' :: (serItems (z :: zs) ++ ']' :: s)) := by
          show (serialize x ++ ',' :: ' ' :: serItems (z :: zs)) ++ ']' :: s = _
          rw [List.append_assoc]
          rfl
        have h2 : (']' :: t : List Char) =
            serialize x ++ (',' :: ' ' :: (serItems (z :: zs) ++ ']' :: s)) := by
          rw [← hL]
          exact heq.symm
        rw [hser] at h2
        injection h2 with hhead htail
        exact h1 hhead.symm
    · rcases xs' with - | ⟨x2, xs''⟩ <;> rcases ys' with - | ⟨y2, ys''⟩
      · have h2 : serialize x ++ (']' :: s) = serialize y ++ (']' :: t) := heq
        obtain ⟨hxy, hst⟩ := IH x y _ _ hszx h2
          (fun c hc => by cases hc; decide) (fun c hc => by cases hc; decide)
        simp only [List.cons.injEq] at hst
        exact ⟨by rw [hxy], hst.2⟩
      · have hR : serItems (y :: y2 :: ys'') ++ ']' :: t =
            serialize y ++ (',' :: ' ' :: (serItems (y2 :: ys'') ++ ']' :: t)) := by
          show (serialize y ++ ',' :: ' ' :: serItems (y2 :: ys'')) ++ ']' :: t = _
          rw [List.append_assoc]
          rfl
        have h2 : serialize x ++ (']' :: s) =
            serialize y ++ (',' :: ' ' :: (serItems (y2 :: ys'') ++ ']' :: t)) := by
          rw [← hR]
          exact heq
        obtain ⟨-, hst⟩ := IH x y _ _ hszx h2
          (fun c hc => by cases hc; decide) (fun c hc => by cases hc; decide)
        simp at hst
      · have hL : serItems (x :: x2 :: xs'') ++ ']' :: s =
            serialize x ++ (',' :: ' ' :: (serItems (x2 :: xs'') ++ ']' :: s)) := by
          show (serialize x ++ ',' :: ' ' :: serItems (x2 :: xs'')) ++ ']' :: s = _
          rw [List.append_assoc]
          rfl
        have h2 : serialize x ++ (',' :: ' ' :: (serItems (x2 :: xs'') ++ ']' :: s)) =
            serialize y ++ (']' :: t) := by
          rw [← hL]
          exact heq
        obtain ⟨-, hst⟩ := IH x y _ _ hszx h2
          (fun c hc => by cases hc; decide) (fun c hc => by cases hc; decide)
        simp at hst
      · have hL : serItems (x :: x2 :: xs'') ++ ']' :: s =
            serialize x ++ (',' :: ' ' :: (serItems (x2 :: xs'') ++ ']' :: s)) := by
          show (serialize x ++ ',' :: ' ' :: serItems (x2 :: xs'')) ++ ']' :: s = _
          rw [List.append_assoc]
          rfl
        have hR : serItems (y :: y2 :: ys'') ++ ']' :: t =
            serialize y ++ (',' :: ' ' :: (serItems (y2 :: ys'') ++ ']' :: t)) := by
          show (serialize y ++ ',' :: ' ' :: serItems (y2 :: ys'')) ++ ']' :: t = _
          rw [List.append_assoc]
          rfl
        have h2 : serialize x ++ (',' :: ' ' :: (serItems (x2 :: xs'') ++ ']' :: s)) =
            serialize y ++ (',' :: ' ' :: (serItems (y2 :: ys'') ++ ']' :: t)) := by
          rw [← hL, ← hR]
          exact heq
        obtain ⟨hxy, hst⟩ := IH x y _ _ hszx h2
          (fun c hc => by cases hc; decide) (fun c hc => by cases hc; decide)
        simp only [List.cons.injEq, true_and] at hst
        obtain ⟨htail, hs⟩ := ihx (y2 :: ys'') s t
          (fun z hz => hsz z (List.mem_cons_of_mem _ hz)) hst
        exact ⟨by rw [hxy, htail], hs⟩

/-- Object bodies followed by the closing brace are uniquely delimited,
given uniqueness for the field values. -/
theorem serFields_unique (N : Nat)
    (IH : ∀ (a b : Json) (s t : List Char), sizeOf a < N →
      serialize a ++ s = serialize b ++ t →
      (∀ c, s.head? = some c → isDigitChar c = false) →
      (∀ c, t.head? = some c → isDigitChar c = false) →
      a = b ∧ s = t) :
    ∀ (fs gs : List (List Char × Json)) (s t : List Char),
    (∀ p ∈ fs, sizeOf p.2 < N) →
    serFields fs ++ rbrace :: s = serFields gs ++ rbrace :: t →
    fs = gs ∧ s = t := by
  intro fs
  induction fs with
  | nil =>
    intro gs s t hsz heq
    rcases gs with - | ⟨⟨k, v⟩, gs'⟩
    · simp only [serFields, List.nil_append, List.cons.injEq] at heq
      exact ⟨rfl, heq.2⟩
    · exfalso
      have heq2 : (rbrace :: s : List Char) = serFields ((k, v) :: gs') ++ rbrace :: t := heq
      rcases gs' with - | ⟨q, qs⟩
      · injection heq2 with hhead htail
        revert hhead
        decide
      · injection heq2 with hhead htail
        revert hhead
        decide
  | cons p fs' ihf =>
    intro gs s t hsz heq
    obtain ⟨k1, v1⟩ := p
    have hszv : sizeOf v1 < N := hsz (k1, v1) (List.mem_cons_self _ _)
    rcases gs with - | ⟨⟨k2, v2⟩, gs'⟩
    · exfalso
      have heq2 : (rbrace :: t : List Char) =
          serFields ((k1, v1) :: fs') ++ rbrace :: s := heq.symm
      rcases fs' with - | ⟨q, qs⟩
      · injection heq2 with hhead htail
        revert hhead
        decide
      · injection heq2 with hhead htail
        revert hhead
        decide
    · -- both non-empty: normalize each side to
      -- '"' :: (escape key ++ '"' :: (':' :: ' ' :: (serialize value ++ REST)))
      have hnormL : ∀ (k : List Char) (v : Json) (fs2 : List (List Char × Json)) (X : List Char),
          serFields ((k, v) :: fs2) ++ X =
            '"' :: (escapeChars k ++ '"' :: (':' :: ' ' :: (serialize v ++
              (match fs2 with
               | [] => X
               | q :: qs => ',' :: ' ' :: (serFields (q :: qs) ++ X))))) := by
        intro k v fs2 X
        rcases fs2 with - | ⟨q, qs⟩
        · show ('"' :: escapeChars k ++ '"' :: ':' :: ' ' :: serialize v) ++ X = _
          simp [List.append_assoc]
        · show (('"' :: escapeChars k ++ '"' :: ':' :: ' ' :: serialize v) ++
            ',' :: ' ' :: serFields (q :: qs)) ++ X = _
          simp [List.append_assoc]
      rw [hnormL k1 v1 fs' (rbrace :: s), hnormL k2 v2 gs' (rbrace :: t)] at heq
      simp only [List.cons.injEq, true_and] at heq
      obtain ⟨hk, hrest⟩ := escapeChars_unique k1 k2 _ _ heq
      simp only [List.cons.injEq, true_and] at hrest
      -- hrest : serialize v1 ++ REST1 = serialize v2 ++ REST2
      rcases fs' with - | ⟨q1, qs1⟩ <;> rcases gs' with - | ⟨q2, qs2⟩
      · obtain ⟨hv, hst⟩ := IH v1 v2 _ _ hszv hrest
          (fun c hc => by cases hc; decide) (fun c hc => by cases hc; decide)
        simp only [List.cons.injEq, true_and] at hst
        exact ⟨by rw [hk, hv], hst⟩
      · obtain ⟨-, hst⟩ := IH v1 v2 _ _ hszv hrest
          (fun c hc => by cases hc; decide) (fun c hc => by cases hc; decide)
        simp only [List.cons.injEq] at hst
        exact absurd hst.1 (by decide)
      · obtain ⟨-, hst⟩ := IH v1 v2 _ _ hszv hrest
          (fun c hc => by cases hc; decide) (fun c hc => by cases hc; decide)
        simp only [List.cons.injEq] at hst
        exact absurd hst.1 (by decide)
      · obtain ⟨hv, hst⟩ := IH v1 v2 _ _ hszv hrest
          (fun c hc => by cases hc; decide) (fun c hc => by cases hc; decide)
        simp only [List.cons.injEq, true_and] at hst
        obtain ⟨htail, hs⟩ := ihf (q2 :: qs2) s t
          (fun z hz => hsz z (List.mem_cons_of_mem _ hz)) hst
        exact ⟨by rw [hk, hv, htail], hs⟩

/-- Serialised documents followed by non-digit continuations are uniquely
delimited: `json.dumps` output determines the document. -/
theorem serialize_unique : ∀ (N : Nat) (a b : Json) (s t : List Char), sizeOf a ≤ N →
    serialize a ++ s = serialize b ++ t →
    (∀ c, s.head? = some c → isDigitChar c = false) →
    (∀ c, t.head? = some c → isDigitChar c = false) →
    a = b ∧ s = t := by
  intro N
  induction N using Nat.strong_induction_on with
  | _ N IH =>
    intro a b s t hsz heq hs ht
    have htag : headTag a = headTag b := by
      obtain ⟨ca, ta, hsa, hta⟩ := serialize_shape a
      obtain ⟨cb, tb, hsb, htb⟩ := serialize_shape b
      rw [hsa, hsb] at heq
      simp only [List.cons_append, List.cons.injEq] at heq
      rw [← hta, ← htb, heq.1]
    have IHlt : ∀ (a2 b2 : Json) (s2 t2 : List Char), sizeOf a2 < N →
        serialize a2 ++ s2 = serialize b2 ++ t2 →
        (∀ c, s2.head? = some c → isDigitChar c = false) →
        (∀ c, t2.head? = some c → isDigitChar c = false) →
        a2 = b2 ∧ s2 = t2 := by
      intro a2 b2 s2 t2 hlt
      exact IH (sizeOf a2) hlt a2 b2 s2 t2 (Nat.le_refl _)
    cases a <;> cases b <;>
      try (exfalso; simp only [headTag] at htag; exact absurd htag (by decide))
    · exact ⟨rfl, List.append_inj_right heq rfl⟩
    case bool.bool ba bb =>
      rcases ba <;> rcases bb
      · exact ⟨rfl, List.append_inj_right heq rfl⟩
      · exfalso
        have h2 : ('f' :: ('a' :: 'l' :: 's' :: 'e' :: s) : List Char) =
            't' :: ('r' :: 'u' :: 'e' :: t) := heq
        simp at h2
      · exfalso
        have h2 : ('t' :: ('r' :: 'u' :: 'e' :: s) : List Char) =
            'f' :: ('a' :: 'l' :: 's' :: 'e' :: t) := heq
        simp at h2
      · exact ⟨rfl, List.append_inj_right heq rfl⟩
    case num.num na nb =>
      obtain ⟨hmn, hst⟩ := intRepr_unique heq hs ht
      exact ⟨by rw [hmn], hst⟩
    case str.str sa sb =>
      have h2 : escapeChars sa ++ '"' :: s = escapeChars sb ++ '"' :: t := by
        have h4 : (('"' :: escapeChars sa ++ ['"']) ++ s : List Char) =
            ('"' :: escapeChars sb ++ ['"']) ++ t := heq
        simp only [List.cons_append, List.append_assoc, List.singleton_append,
          List.cons.injEq, true_and] at h4
        exact h4
      obtain ⟨hsab, hst⟩ := escapeChars_unique sa sb _ _ h2
      exact ⟨by rw [hsab], hst⟩
    case arr.arr xsa xsb =>
      have h2 : serItems xsa ++ ']' :: s = serItems xsb ++ ']' :: t := by
        have h4 : (('[' :: serItems xsa ++ [']']) ++ s : List Char) =
            ('[' :: serItems xsb ++ [']']) ++ t := heq
        simp only [List.cons_append, List.append_assoc, List.singleton_append,
          List.cons.injEq, true_and] at h4
        exact h4
      have hmem : ∀ x ∈ xsa, sizeOf x < N := by
        intro x hx
        have h4 := List.sizeOf_lt_of_mem hx
        have h5 : sizeOf (Json.arr xsa) ≤ N := hsz
        simp only [Json.arr.sizeOf_spec] at h5
        omega
      obtain ⟨hxy, hst⟩ := serItems_unique N IHlt xsa xsb s t hmem h2
      exact ⟨by rw [hxy], hst⟩
    case obj.obj fsa fsb =>
      have h2 : serFields fsa ++ rbrace :: s = serFields fsb ++ rbrace :: t := by
        have h4 : ((lbrace :: serFields fsa ++ [rbrace]) ++ s : List Char) =
            (lbrace :: serFields fsb ++ [rbrace]) ++ t := heq
        simp only [List.cons_append, List.append_assoc, List.singleton_append,
          List.cons.injEq, true_and] at h4
        exact h4
      have hmem : ∀ p ∈ fsa, sizeOf p.2 < N := by
        intro p hp
        have h4 := List.sizeOf_lt_of_mem hp
        have h5 : sizeOf (Json.obj fsa) ≤ N := hsz
        simp only [Json.obj.sizeOf_spec] at h5
        have h6 : sizeOf p.2 < sizeOf p := by
          obtain ⟨pk, pv⟩ := p
          simp [Prod.mk.sizeOf_spec]
        omega
      obtain ⟨hxy, hst⟩ := serFields_unique N IHlt fsa fsb s t hmem h2
      exact ⟨by rw [hxy], hst⟩

/-- `json.dumps` with sorted keys is injective on documents. -/
theorem serialize_inj {a b : Json} (h : serialize a = serialize b) : a = b := by
  have h2 : serialize a ++ [] = serialize b ++ [] := by simp [h]
  exact (serialize_unique (sizeOf a) a b [] [] (Nat.le_refl _) h2
    (fun c hc => by cases hc) (fun c hc => by cases hc)).1


/-- `canonFields` maps keys to themselves, so it commutes with the key-driven
`orderedInsert` of the sort. -/
theorem canonFields_orderedInsert (k : List Char) (v : Json)
    (l : List (List Char × Json)) :
    canonFields (List.orderedInsert fieldLe (k, v) l) =
      List.orderedInsert fieldLe (k, canon v) (canonFields l) := by
  induction l with
  | nil => rfl
  | cons q l ih =>
    obtain ⟨k2, v2⟩ := q
    show canonFields (if fieldLe (k, v) (k2, v2) then (k, v) :: (k2, v2) :: l
        else (k2, v2) :: List.orderedInsert fieldLe (k, v) l) =
      if fieldLe (k, v) (k2, v2) then (k, canon v) :: (k2, canon v2) :: canonFields l
        else (k2, canon v2) :: List.orderedInsert fieldLe (k, canon v) (canonFields l)
    by_cases h : fieldLe (k, v) (k2, v2)
    · rw [if_pos h, if_pos h]
      rfl
    · rw [if_neg h, if_neg h]
      show (k2, canon v2) :: canonFields (List.orderedInsert fieldLe (k, v) l) = _
      rw [ih]

/-- Recursively canonicalising the values of an object's fields commutes with
sorting the fields by key. -/
theorem canonFields_sortFields (fs : List (List Char × Json)) :
    canonFields (sortFields fs) = sortFields (canonFields fs) := by
  induction fs with
  | nil => rfl
  | cons p fs ih =>
    obtain ⟨k, v⟩ := p
    show canonFields (List.orderedInsert fieldLe (k, v) (sortFields fs)) =
      List.orderedInsert fieldLe (k, canon v) (sortFields (canonFields fs))
    rw [canonFields_orderedInsert, ih]

/-- Structurally equal documents have the same canonical (key-sorted) form. -/
theorem canon_eq_of_structEq : ∀ (N : Nat) (a b : Json), sizeOf a ≤ N →
    StructEq a b → canon a = canon b := by
  intro N
  induction N using Nat.strong_induction_on with
  | _ N IH =>
    intro a b hsz h
    cases h with
    | null => rfl
    | bool b => rfl
    | num n => rfl
    | str s => rfl
    | @arr xs ys hl =>
      show Json.arr (canonList xs) = Json.arr (canonList ys)
      have hmem : ∀ x ∈ xs, sizeOf x < N := by
        intro x hx
        have h4 := List.sizeOf_lt_of_mem hx
        have h5 : sizeOf (Json.arr xs) ≤ N := hsz
        simp only [Json.arr.sizeOf_spec] at h5
        omega
      have haux : ∀ (l1 l2 : List Json), (∀ x ∈ l1, sizeOf x < N) →
          StructEqList l1 l2 → canonList l1 = canonList l2 := by
        intro l1
        induction l1 with
        | nil =>
          intro l2 _ hl2
          cases hl2
          rfl
        | cons x l1 ih =>
          intro l2 hm hl2
          cases hl2 with
          | @cons _ y _ ys2 hxy hrest =>
            simp only [canonList]
            rw [IH (sizeOf x) (hm x (List.mem_cons_self _ _)) x y (Nat.le_refl _) hxy,
              ih ys2 (fun z hz => hm z (List.mem_cons_of_mem _ hz)) hrest]
      rw [haux xs ys hmem hl]
    | @obj xs ys hf =>
      show Json.obj (sortFields (canonFields xs)) = Json.obj (sortFields (canonFields ys))
      rw [← canonFields_sortFields, ← canonFields_sortFields]
      have hmem : ∀ p ∈ sortFields xs, sizeOf p.2 < N := by
        intro p hp
        have hp2 : p ∈ xs := (List.perm_insertionSort fieldLe xs).mem_iff.mp hp
        have h4 := List.sizeOf_lt_of_mem hp2
        have h5 : sizeOf (Json.obj xs) ≤ N := hsz
        simp only [Json.obj.sizeOf_spec] at h5
        have h6 : sizeOf p.2 < sizeOf p := by
          obtain ⟨pk, pv⟩ := p
          simp [Prod.mk.sizeOf_spec]
        omega
      have haux : ∀ (l1 l2 : List (List Char × Json)), (∀ p ∈ l1, sizeOf p.2 < N) →
          StructEqFields l1 l2 → canonFields l1 = canonFields l2 := by
        intro l1
        induction l1 with
        | nil =>
          intro l2 _ hf2
          cases hf2
          rfl
        | cons p l1 ih =>
          obtain ⟨pk, pv⟩ := p
          intro l2 hm hf2
          cases hf2 with
          | @cons _ k2 _ v2 _ gs hk hv hrest =>
            simp only [canonFields]
            rw [hk, IH (sizeOf pv) (hm (pk, pv) (List.mem_cons_self _ _)) pv v2
              (Nat.le_refl _) hv, ih gs (fun z hz => hm z (List.mem_cons_of_mem _ hz)) hrest]
      rw [haux (sortFields xs) (sortFields ys) hmem hf]

/-- Documents with the same canonical (key-sorted) form are structurally
equal up to key order. -/
theorem structEq_of_canon_eq : ∀ (N : Nat) (a b : Json), sizeOf a ≤ N →
    canon a = canon b → StructEq a b := by
  intro N
  induction N using Nat.strong_induction_on with
  | _ N IH =>
    intro a b hsz h
    cases a <;> cases b <;> try (exfalso; exact Json.noConfusion h)
    · exact .null
    case bool.bool ba bb =>
      have h2 : Json.bool ba = Json.bool bb := h
      injection h2 with h3
      rw [h3]
      exact .bool bb
    case num.num na nb =>
      have h2 : Json.num na = Json.num nb := h
      injection h2 with h3
      rw [h3]
      exact .num nb
    case str.str sa sb =>
      have h2 : Json.str sa = Json.str sb := h
      injection h2 with h3
      rw [h3]
      exact .str sb
    case arr.arr xs ys =>
      have h2 : Json.arr (canonList xs) = Json.arr (canonList ys) := h
      injection h2 with h3
      have hmem : ∀ x ∈ xs, sizeOf x < N := by
        intro x hx
        have h4 := List.sizeOf_lt_of_mem hx
        have h5 : sizeOf (Json.arr xs) ≤ N := hsz
        simp only [Json.arr.sizeOf_spec] at h5
        omega
      have haux : ∀ (l1 l2 : List Json), (∀ x ∈ l1, sizeOf x < N) →
          canonList l1 = canonList l2 → StructEqList l1 l2 := by
        intro l1
        induction l1 with
        | nil =>
          intro l2 _ hc
          cases l2 with
          | nil => exact .nil
          | cons y l2 => exact absurd hc (by simp [canonList])
        | cons x l1 ih =>
          intro l2 hm hc
          cases l2 with
          | nil => exact absurd hc (by simp [canonList])
          | cons y l2 =>
            simp only [canonList, List.cons.injEq] at hc
            exact .cons (IH (sizeOf x) (hm x (List.mem_cons_self _ _)) x y (Nat.le_refl _) hc.1)
              (ih l2 (fun z hz => hm z (List.mem_cons_of_mem _ hz)) hc.2)
      exact .arr (haux xs ys hmem h3)
    case obj.obj xs ys =>
      have h2 : Json.obj (sortFields (canonFields xs)) =
          Json.obj (sortFields (canonFields ys)) := h
      injection h2 with h3
      rw [← canonFields_sortFields, ← canonFields_sortFields] at h3
      have hmem : ∀ p ∈ sortFields xs, sizeOf p.2 < N := by
        intro p hp
        have hp2 : p ∈ xs := (List.perm_insertionSort fieldLe xs).mem_iff.mp hp
        have h4 := List.sizeOf_lt_of_mem hp2
        have h5 : sizeOf (Json.obj xs) ≤ N := hsz
        simp only [Json.obj.sizeOf_spec] at h5
        have h6 : sizeOf p.2 < sizeOf p := by
          obtain ⟨pk, pv⟩ := p
          simp [Prod.mk.sizeOf_spec]
        omega
      have haux : ∀ (l1 l2 : List (List Char × Json)), (∀ p ∈ l1, sizeOf p.2 < N) →
          canonFields l1 = canonFields l2 → StructEqFields l1 l2 := by
        intro l1
        induction l1 with
        | nil =>
          intro l2 _ hc
          cases l2 with
          | nil => exact .nil
          | cons q l2 =>
            obtain ⟨qk, qv⟩ := q
            exact absurd hc (by simp [canonFields])
        | cons p l1 ih =>
          obtain ⟨pk, pv⟩ := p
          intro l2 hm hc
          cases l2 with
          | nil => exact absurd hc (by simp [canonFields])
          | cons q l2 =>
            obtain ⟨qk, qv⟩ := q
            simp only [canonFields, List.cons.injEq, Prod.mk.injEq] at hc
            exact .cons hc.1.1 (IH (sizeOf pv) (hm (pk, pv) (List.mem_cons_self _ _)) pv qv
              (Nat.le_refl _) hc.1.2) (ih l2 (fun z hz => hm z (List.mem_cons_of_mem _ hz)) hc.2)
      exact .obj (haux (sortFields xs) (sortFields ys) hmem h3)

/-- C7: change detection is full structural-value equality with nothing
excluded.  For every pair of JSON documents, `_has_meaningful_changes`
returns false if and only if the two documents are structurally equal up to
dict key order; in particular documents differing only in key order compare
as unchanged, and documents differing in any value (metadata fields
included, since `clean_data` returns its argument unchanged) compare as
changed. -/
theorem has_meaningful_changes_eq_false_iff (a b : Json) :
    hasMeaningfulChanges a b = false ↔ StructEq a b := by
  have hkey : hasMeaningfulChanges a b = false ↔ canon a = canon b := by
    constructor
    · intro h
      have h3 : decide (dumps (cleanData a) ≠ dumps (cleanData b)) = false := h
      exact serialize_inj (not_not.mp (decide_eq_false_iff_not.mp h3))
    · intro h
      show decide (dumps (cleanData a) ≠ dumps (cleanData b)) = false
      have h2 : dumps (cleanData a) = dumps (cleanData b) := by
        show serialize (canon a) = serialize (canon b)
        rw [h]
      rw [decide_eq_false_iff_not]
      exact not_not.mpr h2
  rw [hkey]
  constructor
  · exact fun h => structEq_of_canon_eq (sizeOf a) a b (Nat.le_refl _) h
  · exact fun h => canon_eq_of_structEq (sizeOf a) a b (Nat.le_refl _) h

end Valg
